import Mathlib

/-!
Verification development for the MQLib MongoDB-to-SQL translation engine.

The definitions below are a shallow embedding of the translation core:

* `src/adapters/base_adapter.ts` (`BaseSqlAdapter`): `serializeValue`,
  `buildOperatorConditions`, `buildSetClause`, `translateUpdate`,
  `translateDelete`;
* `src/adapters/sqlite/sqlite_adapter.ts` (`SqliteAdapter`):
  `escapeIdentifier`, `getParameterPlaceholder`, `buildOperatorConditions`,
  `buildSetClause`, `preprocessFilter`, `handleNestedPathInFilter`,
  `buildWhereConditionsForFilter`, `addPathCondition`,
  `handleArrayFieldQuery`, `translateFilter`, `translateInsert`,
  `processDocumentForInsert`, `cleanupDotNotationProperties`, `isArrayField`;
* `src/adapters/mysql` (`MySqlAdapter`) and
  `src/adapters/postgres/postgres_adapter.ts` (`PostgresAdapter`):
  `escapeIdentifier`, `getParameterPlaceholder`, `buildOperatorConditions`.

The adapters are modelled in their default configuration: no collection
schema has been registered and `isSchemaEnabled` is `false` (the state a
fresh adapter is in), so `getCollectionSchema` returns `undefined` and
`isArrayField` falls back to the conventional field-name list.

JavaScript runtime values are modelled by the inductive type `JVal`
(JS `Date` objects are outside the modelled value universe; none of the
properties below concern them).  JavaScript exceptions are modelled with
`Except String`.  Mutation of the `params` array is modelled by explicit
state passing: each function takes the parameter list built so far and
returns the extended one.
-/

namespace MqlibProof

/-- Model of a JavaScript runtime value (`null`, `undefined`, booleans,
numbers, strings, arrays, plain objects).  Object fields are kept in
insertion order, matching `Object.entries` enumeration order for the
string keys used by MQLib filters and updates. -/
inductive JVal where
  | vUndef
  | vNull
  | vBool (b : Bool)
  | vNum (n : Int)
  | vStr (s : String)
  | vArr (elems : List JVal)
  | vObj (fields : List (String × JVal))

/-- A JavaScript object: an insertion-ordered field list. -/
abbrev Obj := List (String × JVal)

mutual

/-- Boolean structural equality of modelled JS values (used to model the
SQL value-equality comparison `json_each.value = ?`). -/
def jvalBeq : JVal → JVal → Bool
  | .vUndef, .vUndef => true
  | .vNull, .vNull => true
  | .vBool b, .vBool b' => b = b'
  | .vNum n, .vNum n' => n = n'
  | .vStr s, .vStr s' => s = s'
  | .vArr xs, .vArr ys => jvalBeqList xs ys
  | .vObj fs, .vObj gs => jvalBeqFields fs gs
  | _, _ => false

/-- Elementwise `jvalBeq` on lists. -/
def jvalBeqList : List JVal → List JVal → Bool
  | [], [] => true
  | x :: xs, y :: ys => jvalBeq x y && jvalBeqList xs ys
  | _, _ => false

/-- Fieldwise `jvalBeq` on field lists. -/
def jvalBeqFields : List (String × JVal) → List (String × JVal) → Bool
  | [], [] => true
  | (k, v) :: fs, (k', v') :: gs => k = k' && jvalBeq v v' && jvalBeqFields fs gs
  | _, _ => false

end

/-- Model of `{ sql, params }` (`SqlQuery` in `src/interfaces/adapter.ts`). -/
structure SqlQuery where
  sql : String
  params : List JVal

/-- JavaScript property lookup on an object literal (keys are unique in
objects produced by JS object literals, so first-match lookup is exact). -/
def lookupJ : Obj → String → Option JVal
  | [], _ => none
  | (k, v) :: rest, key => if k = key then some v else lookupJ rest key

/-- JavaScript truthiness (`Boolean(v)`). -/
def jsTruthy : JVal → Bool
  | .vUndef => false
  | .vNull => false
  | .vBool b => b
  | .vNum n => n != 0
  | .vStr s => s ≠ ""
  | .vArr _ => true
  | .vObj _ => true

/-- Decimal digits of a natural number, most significant first. -/
def natChars (n : Nat) : List Char :=
  if _h : n < 10 then [Nat.digitChar n]
  else natChars (n / 10) ++ [Nat.digitChar (n % 10)]
decreasing_by
  exact Nat.div_lt_self (by omega) (by omega)

/-- The string JavaScript uses for an array index key (`String(i)`). -/
def natKey (n : Nat) : String := ⟨natChars n⟩

/-- `Object.entries(v)`: fields of an object, index/element pairs of an
array, index/character pairs of a string, `[]` for other primitives.
(`Object.entries(null)` and `Object.entries(undefined)` throw; callers
model that case explicitly.) -/
def jsEntries : JVal → Obj
  | .vObj fs => fs
  | .vArr xs => xs.enum.map fun p => (natKey p.1, p.2)
  | .vStr s => s.data.enum.map fun p => (natKey p.1, .vStr (String.singleton p.2))
  | _ => []

/-- JSON string escaping of one character (quote and backslash; other
characters pass through, which covers every value exercised here). -/
def jsonEscChar (c : Char) : List Char :=
  if c = '"' then ['\\', '"']
  else if c = '\\' then ['\\', '\\']
  else [c]

/-- A JSON string literal for `s`. -/
def jsonQuote (s : String) : String :=
  ⟨'"' :: (s.data.flatMap jsonEscChar) ++ ['"']⟩

mutual

/-- Model of `JSON.stringify` restricted to the modelled value universe
(`undefined` renders as `null`, as it does inside JSON arrays). -/
def jsonStr : JVal → String
  | .vUndef => "null"
  | .vNull => "null"
  | .vBool b => cond b "true" "false"
  | .vNum n => toString n
  | .vStr s => jsonQuote s
  | .vArr xs => "[" ++ String.intercalate "," (jsonStrList xs) ++ "]"
  | .vObj fs => "\x7b" ++ String.intercalate "," (jsonStrFields fs) ++ "\x7d"

/-- JSON rendering of array elements. -/
def jsonStrList : List JVal → List String
  | [] => []
  | x :: xs => jsonStr x :: jsonStrList xs

/-- JSON rendering of object fields. -/
def jsonStrFields : List (String × JVal) → List String
  | [] => []
  | (k, v) :: fs => (jsonQuote k ++ ":" ++ jsonStr v) :: jsonStrFields fs

end

mutual

/-- Model of JavaScript string coercion `String(v)` (array elements that
are `null`/`undefined` render as the empty string, per `Array.prototype.toString`). -/
def jsToString : JVal → String
  | .vUndef => "undefined"
  | .vNull => "null"
  | .vBool b => cond b "true" "false"
  | .vNum n => toString n
  | .vStr s => s
  | .vArr xs => String.intercalate "," (jsToStringArr xs)
  | .vObj _ => "[object Object]"

/-- Elementwise rendering used by `String(array)`. -/
def jsToStringArr : List JVal → List String
  | [] => []
  | .vNull :: xs => "" :: jsToStringArr xs
  | .vUndef :: xs => "" :: jsToStringArr xs
  | x :: xs => jsToString x :: jsToStringArr xs

end

/-- `BaseSqlAdapter.serializeValue` (base_adapter lines 676-690):
`null`/`undefined` become SQL `NULL`; objects and arrays are JSON-encoded;
other primitives pass through.  (The `Date` branch concerns a value kind
outside the modelled universe.) -/
def serializeValue : JVal → JVal
  | .vNull => .vNull
  | .vUndef => .vNull
  | .vObj fs => .vStr (jsonStr (.vObj fs))
  | .vArr xs => .vStr (jsonStr (.vArr xs))
  | v => v

/-- The expression `typeof value === 'object' ? JSON.stringify(value) : value`
used by the array update operators (`typeof null` is `'object'` in JS, so
`null` serializes to the string `"null"`). -/
def jsSerializeForArray : JVal → JVal
  | .vNull => .vStr "null"
  | .vObj fs => .vStr (jsonStr (.vObj fs))
  | .vArr xs => .vStr (jsonStr (.vArr xs))
  | v => v

/-- Doubles every occurrence of the quote character `q` (the effect of
`identifier.replace(/q/g, 'qq')`). -/
def escDouble (q : Char) : List Char → List Char
  | [] => []
  | c :: cs => if c = q then q :: q :: escDouble q cs else c :: escDouble q cs

/-- `SqliteAdapter.escapeIdentifier` (and `PostgresAdapter.escapeIdentifier`):
wrap in double quotes, doubling embedded double quotes. -/
def sqEscape (s : String) : String :=
  ⟨'"' :: escDouble '"' s.data ++ ['"']⟩

/-- The backtick character. -/
def btChar : Char := '\x60'

/-- `MySqlAdapter.escapeIdentifier`: wrap in backticks, doubling embedded
backticks. -/
def myEscape (s : String) : String :=
  ⟨btChar :: escDouble btChar s.data ++ [btChar]⟩

/-- Character-level model of `String.startsWith`. -/
def strStarts (s p : String) : Bool := p.data.isPrefixOf s.data

/-- Character-level model of `String.endsWith`. -/
def strEnds (s p : String) : Bool := p.data.reverse.isPrefixOf s.data.reverse

/-- Character-level model of `String.trim` (JS `trim` on the whitespace
the generated SQL can contain). -/
def jsTrim (s : String) : String :=
  ⟨((s.data.dropWhile Char.isWhitespace).reverse.dropWhile Char.isWhitespace).reverse⟩

/-- `PostgresAdapter.getParameterPlaceholder`: `$N`, 1-based. -/
def pgPlaceholder (index : Nat) : String := "$" ++ toString (index + 1)

/-- Does the string contain a `.` character? (model of `key.includes('.')`). -/
def hasDotChar (s : String) : Bool := s.data.any (· = '.')

/-- Everything before the first `.` (model of `key.split('.')[0]`). -/
def firstSeg (s : String) : String := ⟨s.data.takeWhile (· ≠ '.')⟩

/-- Character-level splitter accumulating the current segment. -/
def splitDotsAux : List Char → List Char → List String
  | [], cur => [⟨cur.reverse⟩]
  | c :: cs, cur =>
    if c = '.' then ⟨cur.reverse⟩ :: splitDotsAux cs []
    else splitDotsAux cs (c :: cur)

/-- Splits on `.` (model of `key.split('.')`); always returns at least one
segment. -/
def splitDots (s : String) : List String := splitDotsAux s.data []

/-- Boolean string prefix test at the character level. -/
def strPrefix (p s : String) : Bool := p.data.isPrefixOf s.data

/-- Does `needle` occur as a contiguous sublist of `hay`? -/
def listInfix (needle : List Char) : List Char → Bool
  | [] => needle.isEmpty
  | c :: t => needle.isPrefixOf (c :: t) || listInfix needle t

/-- Boolean substring test (model of `String.prototype.includes`). -/
def strIncl (needle hay : String) : Bool := listInfix needle.data hay.data

/-- Model of `!isNaN(Number(s))` for the path-segment strings the update
translator classifies as array indices.  The translator only ever meets
decimal-digit segments (or the empty segment, which `Number` coerces
to `0`); other numeric spellings do not arise from MongoDB paths. -/
def jsIsNumericSegment (s : String) : Bool :=
  s = "" || s.data.all Char.isDigit

/-- Numeric value of a digit segment (`Number(s)` on the same domain). -/
def jsSegmentToNat (s : String) : Nat :=
  s.data.foldl (fun acc c => acc * 10 + c.toNat - '0'.toNat) 0

/-- `SqliteAdapter.isArrayField` with no registered schema: the
conventional array-field name list (sqlite_adapter lines 1477-1487). -/
def sqliteIsArrayField (fieldName : String) : Bool :=
  fieldName = "tags" || fieldName = "skills" || fieldName = "favorites" ||
    fieldName = "categories"

/-- Loop body of `BaseSqlAdapter.buildOperatorConditions` (base_adapter
lines 263-352), specialized to the SQLite dialect hooks the concrete
`SqliteAdapter` instance supplies (`getParameterPlaceholder` = `?`).
Accumulates the `conditions` array and the mutated `params` array. -/
def baseOpConds (column : String) :
    List (String × JVal) → List String → List JVal →
    Except String (List String × List JVal)
  | [], conds, params => .ok (conds, params)
  | (op, v) :: rest, conds, params =>
    if op = "$eq" then
      match v with
      | .vNull => baseOpConds column rest (conds ++ [column ++ " IS NULL"]) params
      | _ => baseOpConds column rest (conds ++ [column ++ " = ?"])
          (params ++ [serializeValue v])
    else if op = "$ne" then
      match v with
      | .vNull => baseOpConds column rest (conds ++ [column ++ " IS NOT NULL"]) params
      | _ => baseOpConds column rest (conds ++ [column ++ " <> ?"])
          (params ++ [serializeValue v])
    else if op = "$gt" then
      baseOpConds column rest (conds ++ [column ++ " > ?"]) (params ++ [serializeValue v])
    else if op = "$gte" then
      baseOpConds column rest (conds ++ [column ++ " >= ?"]) (params ++ [serializeValue v])
    else if op = "$lt" then
      baseOpConds column rest (conds ++ [column ++ " < ?"]) (params ++ [serializeValue v])
    else if op = "$lte" then
      baseOpConds column rest (conds ++ [column ++ " <= ?"]) (params ++ [serializeValue v])
    else if op = "$in" then
      match v with
      | .vArr (x :: xs) =>
        baseOpConds column rest
          (conds ++ [column ++ " IN (" ++
            String.intercalate ", " ((x :: xs).map fun _ => "?") ++ ")"])
          (params ++ (x :: xs).map serializeValue)
      | _ => baseOpConds column rest (conds ++ ["FALSE"]) params
    else if op = "$nin" then
      match v with
      | .vArr (x :: xs) =>
        baseOpConds column rest
          (conds ++ [column ++ " NOT IN (" ++
            String.intercalate ", " ((x :: xs).map fun _ => "?") ++ ")"])
          (params ++ (x :: xs).map serializeValue)
      | _ => baseOpConds column rest (conds ++ ["TRUE"]) params
    else if op = "$exists" then
      baseOpConds column rest
        (conds ++ [if jsTruthy v then column ++ " IS NOT NULL" else column ++ " IS NULL"])
        params
    else if op = "$regex" then
      baseOpConds column rest (conds ++ [column ++ " REGEXP ?"])
        (params ++ [serializeValue v])
    else if op = "$all" || op = "$elemMatch" || op = "$size" || op = "$type" ||
        op = "$mod" then
      .error ("Operator " ++ op ++ " not implemented in base adapter")
    else
      baseOpConds column rest conds params

/-- `BaseSqlAdapter.buildOperatorConditions`: runs the loop and wraps the
joined conditions in parentheses (empty string when no condition). -/
def baseBuildOperatorConditions (column : String) (ops : List (String × JVal))
    (params : List JVal) : Except String (String × List JVal) :=
  match baseOpConds column ops [] params with
  | .error e => .error e
  | .ok (conds, params') =>
    .ok ((if conds.isEmpty then ""
          else "(" ++ String.intercalate " AND " conds ++ ")"), params')

/-- The `$regex`-to-LIKE pattern rewrite of
`SqliteAdapter.buildOperatorConditions` (sqlite_adapter lines 213-228):
strip a leading `^` (else prepend `%`), then, when the original pattern
ends with `$`, drop the last character of the intermediate pattern (else
append `%`). -/
def sqliteLikePattern (regexStr : String) : String :=
  let likePattern :=
    if strStarts regexStr "^" then (⟨regexStr.data.drop 1⟩ : String)
    else "%" ++ regexStr
  if strEnds regexStr "$" then (⟨likePattern.data.dropLast⟩ : String)
  else likePattern ++ "%"

/-- Inner operator switch of the `$elemMatch` handler in
`SqliteAdapter.buildOperatorConditions` (sqlite_adapter lines 266-295). -/
def sqliteElemMatchOps (subOp : String) :
    List (String × JVal) → List String → List JVal →
    Except String (List String × List JVal)
  | [], conds, params => .ok (conds, params)
  | (oper, operValue) :: rest, conds, params =>
    if oper = "$eq" then
      sqliteElemMatchOps subOp rest
        (conds ++ ["json_extract(json_each.value, '$." ++ subOp ++ "') = ?"])
        (params ++ [operValue])
    else if oper = "$ne" then
      sqliteElemMatchOps subOp rest
        (conds ++ ["json_extract(json_each.value, '$." ++ subOp ++ "') != ?"])
        (params ++ [operValue])
    else if oper = "$gt" then
      sqliteElemMatchOps subOp rest
        (conds ++ ["json_extract(json_each.value, '$." ++ subOp ++ "') > ?"])
        (params ++ [operValue])
    else if oper = "$gte" then
      sqliteElemMatchOps subOp rest
        (conds ++ ["json_extract(json_each.value, '$." ++ subOp ++ "') >= ?"])
        (params ++ [operValue])
    else if oper = "$lt" then
      sqliteElemMatchOps subOp rest
        (conds ++ ["json_extract(json_each.value, '$." ++ subOp ++ "') < ?"])
        (params ++ [operValue])
    else if oper = "$lte" then
      sqliteElemMatchOps subOp rest
        (conds ++ ["json_extract(json_each.value, '$." ++ subOp ++ "') <= ?"])
        (params ++ [operValue])
    else
      .error ("Nested operator " ++ oper ++ " not implemented for $elemMatch in SQLite")

/-- Outer loop of the `$elemMatch` handler (sqlite_adapter lines 261-301):
object-valued entries dispatch to the nested operator switch, any other
entry becomes a direct equality on the extracted element property. -/
def sqliteElemMatchConds :
    List (String × JVal) → List String → List JVal →
    Except String (List String × List JVal)
  | [], conds, params => .ok (conds, params)
  | (subOp, subValue) :: rest, conds, params =>
    match subValue with
    | .vObj subFields =>
      match sqliteElemMatchOps subOp subFields conds params with
      | .error e => .error e
      | .ok (conds', params') => sqliteElemMatchConds rest conds' params'
    | _ =>
      sqliteElemMatchConds rest
        (conds ++ ["json_extract(json_each.value, '$." ++ subOp ++ "') = ?"])
        (params ++ [subValue])

/-- The correlated-subquery wrapper the `$elemMatch` handler emits
(sqlite_adapter lines 304-307, template-literal whitespace included). -/
def sqliteElemMatchWrap (column : String) (emConds : List String) : String :=
  "EXISTS (\n              SELECT 1 FROM json_each(" ++ column ++
    ") \n              WHERE " ++ String.intercalate " AND " emConds ++
    "\n            )"

/-- Loop body of `SqliteAdapter.buildOperatorConditions` (sqlite_adapter
lines 206-331): `$regex` becomes a LIKE approximation, `$all`/`$size`/
`$elemMatch` use JSON1 functions (throwing for unsupported value types),
everything else falls back to the base implementation, with base
"not implemented" errors rephrased. -/
def sqliteOpConds (column : String) :
    List (String × JVal) → List String → List JVal →
    Except String (List String × List JVal)
  | [], conds, params => .ok (conds, params)
  | (op, v) :: rest, conds, params =>
    if op = "$regex" then
      sqliteOpConds column rest (conds ++ [column ++ " LIKE ?"])
        (params ++ [.vStr (sqliteLikePattern (jsToString v))])
    else if op = "$all" || op = "$elemMatch" || op = "$size" then
      if op = "$all" then
        match v with
        | .vArr xs =>
          let allConditions := xs.map fun _ =>
            "json_array_length(json_extract(" ++ column ++ ", '$[?]')) > 0"
          let params' := params ++ xs.map fun item => JVal.vStr (jsonStr item)
          if allConditions.isEmpty then sqliteOpConds column rest conds params'
          else sqliteOpConds column rest
            (conds ++ ["(" ++ String.intercalate " AND " allConditions ++ ")"]) params'
        | _ =>
          .error ("Operator " ++ op ++
            " not fully implemented for SQLite with the provided value type")
      else if op = "$size" then
        match v with
        | .vNum n =>
          sqliteOpConds column rest
            (conds ++ ["json_array_length(" ++ column ++ ") = ?"])
            (params ++ [.vNum n])
        | _ =>
          .error ("Operator " ++ op ++
            " not fully implemented for SQLite with the provided value type")
      else
        match v with
        | .vObj fs =>
          match sqliteElemMatchConds fs [] params with
          | .error e => .error e
          | .ok (emConds, params') =>
            if emConds.isEmpty then sqliteOpConds column rest conds params'
            else sqliteOpConds column rest
              (conds ++ [sqliteElemMatchWrap column emConds]) params'
        | .vArr xs =>
          match sqliteElemMatchConds (jsEntries (.vArr xs)) [] params with
          | .error e => .error e
          | .ok (emConds, params') =>
            if emConds.isEmpty then sqliteOpConds column rest conds params'
            else sqliteOpConds column rest
              (conds ++ [sqliteElemMatchWrap column emConds]) params'
        | _ =>
          .error ("Operator " ++ op ++
            " not fully implemented for SQLite with the provided value type")
    else
      match baseBuildOperatorConditions column [(op, v)] params with
      | .error e =>
        if strIncl "not implemented in base adapter" e then
          .error ("Operator " ++ op ++ " not implemented for SQLite")
        else .error e
      | .ok (c, params') =>
        if c = "" then sqliteOpConds column rest conds params'
        else sqliteOpConds column rest (conds ++ [c]) params'

/-- `SqliteAdapter.buildOperatorConditions`: run the loop, join with
`AND` (no outer parentheses), empty string for no condition. -/
def sqliteBuildOperatorConditions (column : String) (ops : List (String × JVal))
    (params : List JVal) : Except String (String × List JVal) :=
  match sqliteOpConds column ops [] params with
  | .error e => .error e
  | .ok (conds, params') =>
    .ok ((if conds.isEmpty then "" else String.intercalate " AND " conds), params')

/-- Loop body of `MySqlAdapter.buildOperatorConditions` (mysql adapter
lines 138-221): the column is escaped up front, values are bound raw, and
there is no `null` special case and no throwing branch. -/
def mysqlOpConds (ec : String) :
    List (String × JVal) → List String → List JVal → List String × List JVal
  | [], conds, params => (conds, params)
  | (op, v) :: rest, conds, params =>
    if op = "$eq" then
      mysqlOpConds ec rest (conds ++ [ec ++ " = ?"]) (params ++ [v])
    else if op = "$ne" then
      mysqlOpConds ec rest (conds ++ [ec ++ " != ?"]) (params ++ [v])
    else if op = "$gt" then
      mysqlOpConds ec rest (conds ++ [ec ++ " > ?"]) (params ++ [v])
    else if op = "$gte" then
      mysqlOpConds ec rest (conds ++ [ec ++ " >= ?"]) (params ++ [v])
    else if op = "$lt" then
      mysqlOpConds ec rest (conds ++ [ec ++ " < ?"]) (params ++ [v])
    else if op = "$lte" then
      mysqlOpConds ec rest (conds ++ [ec ++ " <= ?"]) (params ++ [v])
    else if op = "$in" then
      match v with
      | .vArr (x :: xs) =>
        mysqlOpConds ec rest
          (conds ++ [ec ++ " IN (" ++
            String.intercalate ", " ((x :: xs).map fun _ => "?") ++ ")"])
          (params ++ (x :: xs))
      | _ => mysqlOpConds ec rest (conds ++ ["FALSE"]) params
    else if op = "$nin" then
      match v with
      | .vArr (x :: xs) =>
        mysqlOpConds ec rest
          (conds ++ [ec ++ " NOT IN (" ++
            String.intercalate ", " ((x :: xs).map fun _ => "?") ++ ")"])
          (params ++ (x :: xs))
      | _ => mysqlOpConds ec rest (conds ++ ["TRUE"]) params
    else if op = "$exists" then
      mysqlOpConds ec rest
        (conds ++ [if jsTruthy v then ec ++ " IS NOT NULL" else ec ++ " IS NULL"])
        params
    else if op = "$regex" then
      mysqlOpConds ec rest (conds ++ [ec ++ " REGEXP ?"]) (params ++ [v])
    else if op = "$like" then
      mysqlOpConds ec rest (conds ++ [ec ++ " LIKE ?"]) (params ++ [v])
    else if op = "$contains" then
      mysqlOpConds ec rest (conds ++ ["JSON_CONTAINS(" ++ ec ++ ", ?)"])
        (params ++ [.vStr (jsonStr v)])
    else if op = "$containsAny" then
      match v with
      | .vArr xs =>
        mysqlOpConds ec rest
          (conds ++ ["(" ++ String.intercalate " OR "
            (xs.map fun _ => "JSON_CONTAINS(" ++ ec ++ ", ?)") ++ ")"])
          (params ++ xs.map fun _ => JVal.vStr (jsonStr (.vArr xs)))
      | _ => mysqlOpConds ec rest conds params
    else
      mysqlOpConds ec rest conds params

/-- `MySqlAdapter.buildOperatorConditions`: escape the column, run the
loop, join with `AND` (no outer parentheses). -/
def mysqlBuildOperatorConditions (column : String) (ops : List (String × JVal))
    (params : List JVal) : String × List JVal :=
  match mysqlOpConds (myEscape column) ops [] params with
  | (conds, params') => (String.intercalate " AND " conds, params')

/-- Loop body of `PostgresAdapter.buildOperatorConditions`
(postgres_adapter lines 133-216): numbered `$N` placeholders derived from
the current parameter count; values bound raw; no `null` special case. -/
def pgOpConds (ec : String) :
    List (String × JVal) → List String → List JVal → List String × List JVal
  | [], conds, params => (conds, params)
  | (op, v) :: rest, conds, params =>
    if op = "$eq" then
      pgOpConds ec rest (conds ++ [ec ++ " = " ++ pgPlaceholder params.length])
        (params ++ [v])
    else if op = "$ne" then
      pgOpConds ec rest (conds ++ [ec ++ " != " ++ pgPlaceholder params.length])
        (params ++ [v])
    else if op = "$gt" then
      pgOpConds ec rest (conds ++ [ec ++ " > " ++ pgPlaceholder params.length])
        (params ++ [v])
    else if op = "$gte" then
      pgOpConds ec rest (conds ++ [ec ++ " >= " ++ pgPlaceholder params.length])
        (params ++ [v])
    else if op = "$lt" then
      pgOpConds ec rest (conds ++ [ec ++ " < " ++ pgPlaceholder params.length])
        (params ++ [v])
    else if op = "$lte" then
      pgOpConds ec rest (conds ++ [ec ++ " <= " ++ pgPlaceholder params.length])
        (params ++ [v])
    else if op = "$in" then
      match v with
      | .vArr (x :: xs) =>
        pgOpConds ec rest
          (conds ++ [ec ++ " IN (" ++ String.intercalate ", "
            (((x :: xs).enum).map fun p => pgPlaceholder (params.length + p.1)) ++ ")"])
          (params ++ (x :: xs))
      | _ => pgOpConds ec rest (conds ++ ["FALSE"]) params
    else if op = "$nin" then
      match v with
      | .vArr (x :: xs) =>
        pgOpConds ec rest
          (conds ++ [ec ++ " NOT IN (" ++ String.intercalate ", "
            (((x :: xs).enum).map fun p => pgPlaceholder (params.length + p.1)) ++ ")"])
          (params ++ (x :: xs))
      | _ => pgOpConds ec rest (conds ++ ["TRUE"]) params
    else if op = "$exists" then
      pgOpConds ec rest
        (conds ++ [if jsTruthy v then ec ++ " IS NOT NULL" else ec ++ " IS NULL"])
        params
    else if op = "$regex" then
      pgOpConds ec rest (conds ++ [ec ++ " ~ " ++ pgPlaceholder params.length])
        (params ++ [v])
    else if op = "$like" then
      pgOpConds ec rest (conds ++ [ec ++ " LIKE " ++ pgPlaceholder params.length])
        (params ++ [v])
    else if op = "$ilike" then
      pgOpConds ec rest (conds ++ [ec ++ " ILIKE " ++ pgPlaceholder params.length])
        (params ++ [v])
    else if op = "$contains" then
      pgOpConds ec rest
        (conds ++ [ec ++ " @> " ++ pgPlaceholder params.length ++ "::jsonb"])
        (params ++ [.vStr (jsonStr (.vArr [v]))])
    else if op = "$containsAny" then
      match v with
      | .vArr xs =>
        pgOpConds ec rest
          (conds ++ [ec ++ " ?| " ++ pgPlaceholder params.length])
          (params ++ [.vArr xs])
      | _ => pgOpConds ec rest conds params
    else
      pgOpConds ec rest conds params

/-- `PostgresAdapter.buildOperatorConditions`: escape the column, run the
loop, join with `AND`. -/
def pgBuildOperatorConditions (column : String) (ops : List (String × JVal))
    (params : List JVal) : String × List JVal :=
  match pgOpConds (sqEscape column) ops [] params with
  | (conds, params') => (String.intercalate " AND " conds, params')

mutual

/-- `SqliteAdapter.preprocessFilter` (sqlite_adapter lines 919-939) with
no registered schema: a string value on a conventionally array-named
field is rewritten to `$in: [value]`; non-array object values are
processed recursively; everything else is kept as is. -/
def preprocessFilter : Obj → Obj
  | [] => []
  | (k, v) :: rest => (k, preprocessVal k v) :: preprocessFilter rest

/-- One entry of the `preprocessFilter` loop: string values on array
fields become `$in` singletons, non-array objects recurse, all other
values are kept. -/
def preprocessVal (k : String) : JVal → JVal
  | .vStr s =>
    if sqliteIsArrayField k then .vObj [("$in", .vArr [.vStr s])] else .vStr s
  | .vObj gs => .vObj (preprocessFilter gs)
  | v => v

end

mutual

/-- `SqliteAdapter.handleNestedPathInFilter` (sqlite_adapter lines
1430-1472) on an entry list: `$and`/`$or`/`$nor` recurse into their array
elements (throwing a `TypeError` when the value is not an array, as
`value.map` would), `$not` recurses into its value, every other key —
dotted or not — is kept unchanged. -/
def hnList : Obj → Except String Obj
  | [] => .ok []
  | (k, v) :: rest =>
    if strStarts k "$" then
      if k = "$and" || k = "$or" || k = "$nor" then
        match v with
        | .vArr xs =>
          match hnArr xs with
          | .error e => .error e
          | .ok ys =>
            match hnList rest with
            | .error e => .error e
            | .ok rest' => .ok ((k, JVal.vArr ys) :: rest')
        | _ => .error "TypeError: value.map is not a function"
      else if k = "$not" then
        match hnVal v with
        | .error e => .error e
        | .ok v' =>
          match hnList rest with
          | .error e => .error e
          | .ok rest' => .ok ((k, v') :: rest')
      else
        match hnList rest with
        | .error e => .error e
        | .ok rest' => .ok ((k, v) :: rest')
    else
      match hnList rest with
      | .error e => .error e
      | .ok rest' => .ok ((k, v) :: rest')

/-- Recursion of `handleNestedPathInFilter` over a logical operator's
array elements. -/
def hnArr : List JVal → Except String (List JVal)
  | [] => .ok []
  | x :: xs =>
    match hnVal x with
    | .error e => .error e
    | .ok y =>
      match hnArr xs with
      | .error e => .error e
      | .ok ys => .ok (y :: ys)

/-- `handleNestedPathInFilter` applied to one value: non-objects pass
through (the `typeof` guard); objects are processed entrywise; arrays are
object-ified through `Object.entries` (index keys never start with `$`
and never contain a dot, so the per-entry loop keeps each entry as is). -/
def hnVal : JVal → Except String JVal
  | .vObj gs =>
    match hnList gs with
    | .error e => .error e
    | .ok gs' => .ok (.vObj gs')
  | .vArr xs => .ok (.vObj (jsEntries (.vArr xs)))
  | v => .ok v

end

/-- The correlated subquery `addPathCondition` emits for a dotted path
whose root is an array field (sqlite_adapter lines 1316-1330,
template-literal whitespace included). -/
def sqlitePathExistsCond (rootField jsonPath : String) : String :=
  "EXISTS (\n        SELECT 1 FROM json_each(" ++ sqEscape rootField ++
    ") \n        WHERE json_extract(json_each.value, '$." ++ jsonPath ++
    "') = ?\n      )"

/-- Per-field operator loop of `buildWhereConditionsForFilter`
(sqlite_adapter lines 1245-1256): `$`-prefixed keys of the value object
each become one single-operator call to `buildOperatorConditions`, other
keys are skipped. -/
def bwcffFieldOps (columnName : String) :
    List (String × JVal) → List String → List JVal →
    Except String (List String × List JVal)
  | [], conds, params => .ok (conds, params)
  | (opKey, opValue) :: rest, conds, params =>
    if strStarts opKey "$" then
      match sqliteBuildOperatorConditions columnName [(opKey, opValue)] params with
      | .error e => .error e
      | .ok (c, params') =>
        if c = "" then bwcffFieldOps columnName rest conds params'
        else bwcffFieldOps columnName rest (conds ++ [c]) params'
    else bwcffFieldOps columnName rest conds params

/-- Nested-object branch of `buildWhereConditionsForFilter`
(sqlite_adapter lines 1257-1271): each child key becomes a
`json_extract` equality with the raw child value bound. -/
def bwcffNested (escK : String) :
    List (String × JVal) → List String → List JVal → List String × List JVal
  | [], nconds, params => (nconds, params)
  | (nk, nv) :: rest, nconds, params =>
    bwcffNested escK rest
      (nconds ++ ["json_extract(" ++ escK ++ ", '$." ++ nk ++ "') = ?"])
      (params ++ [nv])

/-- `SqliteAdapter.buildWhereConditionsForFilter` (sqlite_adapter lines
1230-1304) with no registered schema: top-level `$` keys are passed to
`buildOperatorConditions` (`Object.entries(null)` throws), object values
with operator keys dispatch per operator, operator-free object values
become `json_extract` equalities, array values become `IN` lists (or a
`json_each` containment for conventionally array-named fields), dotted
scalar keys use `addPathCondition`, and plain keys a direct equality. -/
def bwcff : Obj → List String → List JVal →
    Except String (List String × List JVal)
  | [], conds, params => .ok (conds, params)
  | (k, v) :: rest, conds, params =>
    if strStarts k "$" then
      match v with
      | .vNull => .error "TypeError: Cannot convert undefined or null to object"
      | .vUndef => .error "TypeError: Cannot convert undefined or null to object"
      | _ =>
        match sqliteBuildOperatorConditions "" (jsEntries v) params with
        | .error e => .error e
        | .ok (c, params') =>
          if c = "" then bwcff rest conds params'
          else bwcff rest (conds ++ [c]) params'
    else
      match v with
      | .vObj gs =>
        if gs.any (fun e => strStarts e.1 "$") then
          match bwcffFieldOps (sqEscape k) gs conds params with
          | .error e => .error e
          | .ok (conds', params') => bwcff rest conds' params'
        else
          match bwcffNested (sqEscape k) gs [] params with
          | (nconds, params') =>
            if nconds.isEmpty then bwcff rest conds params'
            else bwcff rest
              (conds ++ ["(" ++ String.intercalate " AND " nconds ++ ")"]) params'
      | .vArr xs =>
        if sqliteIsArrayField k then
          bwcff rest
            (conds ++ ["EXISTS (SELECT 1 FROM json_each(" ++ sqEscape k ++
              ") WHERE json_each.value IN (" ++
              String.intercalate ", " (xs.map fun _ => "?") ++ "))"])
            (params ++ xs)
        else
          bwcff rest
            (conds ++ [sqEscape k ++ " IN (" ++
              String.intercalate ", " (xs.map fun _ => "?") ++ ")"])
            (params ++ xs)
      | _ =>
        if hasDotChar k then
          let parts := splitDots k
          let rootField := parts.headD k
          let jsonPath := String.intercalate "." parts.tail
          if sqliteIsArrayField rootField then
            bwcff rest (conds ++ [sqlitePathExistsCond rootField jsonPath])
              (params ++ [v])
          else
            bwcff rest
              (conds ++ ["json_extract(" ++ sqEscape rootField ++ ", '$." ++
                jsonPath ++ "') = ?"])
              (params ++ [v])
        else
          bwcff rest (conds ++ [sqEscape k ++ " = ?"]) (params ++ [v])

/-- The literal tail `" IN (?)"` of the rewrite pattern
`/"([^"]+)" IN \(\?\)/g` in `handleArrayFieldQuery`. -/
def litIN : List Char := [' ', 'I', 'N', ' ', '(', '?', ')']

/-- The literal tail `" = ?"` of the rewrite pattern `/"([^"]+)" = \?/g`. -/
def litEQ : List Char := [' ', '=', ' ', '?']

/-- Maximal run of non-quote characters and the remainder. -/
def nonQuoteRun : List Char → List Char × List Char
  | [] => ([], [])
  | c :: cs =>
    if c = '"' then ([], c :: cs)
    else
      match nonQuoteRun cs with
      | (r, rest) => (c :: r, rest)

/-- Attempts to match `"name"` followed by the literal `lit` at the head
of `l`; on success returns the captured name and the matched length.
This is what the anchored regex `"([^"]+)"` + `lit` matches: the
character class excludes `"`, so the greedy capture is exactly the
maximal non-quote run and no backtracking alternative exists. -/
def patTail (lit : List Char) (l : List Char) : Option (String × Nat) :=
  match l with
  | '"' :: restChars =>
    match nonQuoteRun restChars with
    | (run, rest') =>
      if run.isEmpty then none
      else
        match rest' with
        | '"' :: rest'' =>
          if lit.isPrefixOf rest'' then some (⟨run⟩, run.length + 2 + lit.length)
          else none
        | _ => none
  | _ => none

/-- Left-to-right non-overlapping matches of the pattern, as produced by
repeated `exec` of a `/g` regex (after a match the search resumes past
it; otherwise it advances one position).  `fuel` starts at the string
length, which bounds the number of steps. -/
def scanMatchesAux (lit : List Char) :
    Nat → List Char → Nat → List (Nat × String × Nat)
  | 0, _, _ => []
  | _ + 1, [], _ => []
  | fuel + 1, c :: cs, pos =>
    match patTail lit (c :: cs) with
    | some (name, len) =>
      (pos, name, len) :: scanMatchesAux lit fuel ((c :: cs).drop len) (pos + len)
    | none => scanMatchesAux lit fuel cs (pos + 1)

/-- All matches of `"name"` + `lit` in `s` with match index, captured
name and raw match length. -/
def scanMatches (lit : List Char) (s : String) : List (Nat × String × Nat) :=
  scanMatchesAux lit s.data.length s.data 0

/-- Splices `repl` over `len` characters of `s` starting at `idx`
(model of `substring(0, i) + repl + substring(i + len)`). -/
def strReplaceAt (s : String) (idx len : Nat) (repl : String) : String :=
  ⟨s.data.take idx ++ repl.data ++ s.data.drop (idx + len)⟩

/-- The `IN`-pattern loop of `SqliteAdapter.handleArrayFieldQuery`
(sqlite_adapter lines 790-826).  `paramIndex` counts match ordinals, not
parameter positions; replacements are spliced into the working string at
the index the match had in the original string. -/
def hafqInLoop (params : List JVal) :
    List (Nat × String × Nat) → String → List JVal → Nat →
    String × List JVal
  | [], sqlW, newParams, _ => (sqlW, newParams)
  | (idx, fieldName, len) :: ms, sqlW, newParams, paramIndex =>
    if sqliteIsArrayField fieldName then
      match params.getD paramIndex .vUndef with
      | .vArr arr =>
        let placeholders := String.intercalate ", " (arr.map fun _ => "?")
        let replacement := "EXISTS (SELECT 1 FROM json_each(\"" ++ fieldName ++
          "\") WHERE value IN (" ++ placeholders ++ "))"
        hafqInLoop params ms (strReplaceAt sqlW idx len replacement)
          (newParams ++ arr) (paramIndex + 1)
      | _ =>
        hafqInLoop params ms sqlW (newParams ++ [params.getD paramIndex .vUndef])
          (paramIndex + 1)
    else
      hafqInLoop params ms sqlW (newParams ++ [params.getD paramIndex .vUndef])
        (paramIndex + 1)

/-- The equality-pattern loop of `handleArrayFieldQuery` (sqlite_adapter
lines 829-852): rewrites `"f" = ?` to a `json_each` containment for
array-named fields, leaving the parameters untouched. -/
def hafqEqLoop : List (Nat × String × Nat) → String → String
  | [], sqlW => sqlW
  | (idx, fieldName, len) :: ms, sqlW =>
    if sqliteIsArrayField fieldName then
      hafqEqLoop ms (strReplaceAt sqlW idx len
        ("EXISTS (SELECT 1 FROM json_each(\"" ++ fieldName ++
          "\") WHERE value = ?)"))
    else hafqEqLoop ms sqlW

/-- `SqliteAdapter.handleArrayFieldQuery` (sqlite_adapter lines 778-860)
with no registered schema (the table name only feeds `isArrayField`,
which then consults the conventional name list).  When any replacement
happened the collected `newParams` replace the original parameters. -/
def handleArrayFieldQuery (whereClause : String) (params : List JVal) : SqlQuery :=
  if jsTrim whereClause = "" then ⟨whereClause, params⟩
  else
    let processedSql := whereClause
    let st := hafqInLoop params (scanMatches litIN processedSql) processedSql [] 0
    let sqlFinal := hafqEqLoop (scanMatches litEQ processedSql) st.1
    if sqlFinal ≠ processedSql then
      ⟨sqlFinal, if st.2.isEmpty then params else st.2⟩
    else ⟨processedSql, params⟩

/-- `SqliteAdapter.translateFilter` (sqlite_adapter lines 869-914) with
no registered schema: preprocess, normalize nested paths, build the
conditions, prefix `WHERE ` when non-blank (`whereClause &&
whereClause.trim() !== ""` is equivalent to the trim test alone), then
run the array-field rewriting. -/
def sqliteTranslateFilter (filter : Obj) : Except String SqlQuery :=
  if filter.isEmpty then .ok ⟨"", []⟩
  else
    match hnList (preprocessFilter filter) with
    | .error e => .error e
    | .ok finalFilter =>
      match bwcff finalFilter [] [] with
      | .error e => .error e
      | .ok (conds, params) =>
        let whereClause := String.intercalate " AND " conds
        let whereClause :=
          if jsTrim whereClause ≠ "" then "WHERE " ++ whereClause else whereClause
        .ok (handleArrayFieldQuery whereClause params)

/-- The `$push` CASE expression of `SqliteAdapter.buildSetClause`
(sqlite_adapter lines 410-416, template-literal whitespace included). -/
def sqlitePushClause (k : String) : String :=
  sqEscape k ++ " = CASE \n            WHEN " ++ sqEscape k ++
    " IS NULL \n            THEN json_array(?) \n            ELSE json_insert(" ++
    sqEscape k ++ ", '$[#]', ?) \n          END"

/-- The `$addToSet` CASE expression of `SqliteAdapter.buildSetClause`
(sqlite_adapter lines 430-438): a single conditional expression guarded
by a `NOT EXISTS` duplicate check. -/
def sqliteAddToSetClause (k : String) : String :=
  sqEscape k ++ " = CASE \n            WHEN " ++ sqEscape k ++
    " IS NULL \n            THEN json_array(?) \n            WHEN NOT EXISTS(SELECT 1 FROM json_each(" ++
    sqEscape k ++ ") WHERE json_each.value = ?) \n            THEN json_insert(" ++
    sqEscape k ++ ", '$[#]', ?) \n            ELSE " ++ sqEscape k ++
    " \n          END"

/-- The `$pull` re-aggregation expression of `SqliteAdapter.buildSetClause`
(sqlite_adapter lines 450-456). -/
def sqlitePullClause (k : String) : String :=
  sqEscape k ++ " = (\n              SELECT json_group_array(value) \n            FROM json_each(COALESCE(" ++
    sqEscape k ++ ", json_array())) \n              WHERE value != ?\n          )"

/-- `$set` loop of `SqliteAdapter.buildSetClause` (sqlite_adapter lines
346-384): array-index paths use `json_set` with the index bound as a
parameter, other dotted paths use a `json_set` JSON path, plain keys a
direct assignment; the raw value is bound in each case. -/
def sqliteSetEntries :
    List (String × JVal) → List String → List JVal → List String × List JVal
  | [], cls, params => (cls, params)
  | (k, v) :: rest, cls, params =>
    if hasDotChar k then
      let parts := splitDots k
      let rootField := parts.headD k
      if parts.length ≥ 2 && jsIsNumericSegment (parts.getD 1 "") then
        let arrayIndex := jsSegmentToNat (parts.getD 1 "")
        if parts.length = 2 then
          sqliteSetEntries rest
            (cls ++ [sqEscape rootField ++ " = json_set(" ++ sqEscape rootField ++
              ", '$[' || ? || ']', ?)"])
            (params ++ [.vNum (arrayIndex : Int), v])
        else
          let propertyPath := String.intercalate "." (parts.drop 2)
          sqliteSetEntries rest
            (cls ++ [sqEscape rootField ++ " = json_set(" ++ sqEscape rootField ++
              ", '$[' || ? || ']." ++ propertyPath ++ "', ?)"])
            (params ++ [.vNum (arrayIndex : Int), v])
      else
        let jsonPath := String.intercalate "." parts.tail
        sqliteSetEntries rest
          (cls ++ [sqEscape rootField ++ " = json_set(" ++ sqEscape rootField ++
            ", '$." ++ jsonPath ++ "', ?)"])
          (params ++ [v])
    else
      sqliteSetEntries rest (cls ++ [sqEscape k ++ " = ?"]) (params ++ [v])

/-- `$inc` loop shared by the base and SQLite SET-clause builders: the
raw value is bound. -/
def sqliteIncEntries :
    List (String × JVal) → List String → List JVal → List String × List JVal
  | [], cls, params => (cls, params)
  | (k, v) :: rest, cls, params =>
    sqliteIncEntries rest
      (cls ++ [sqEscape k ++ " = " ++ sqEscape k ++ " + ?"]) (params ++ [v])

/-- `$unset` loop: each key is set to `NULL`, nothing is bound. -/
def sqliteUnsetEntries :
    List (String × JVal) → List String → List JVal → List String × List JVal
  | [], cls, params => (cls, params)
  | (k, _) :: rest, cls, params =>
    sqliteUnsetEntries rest (cls ++ [sqEscape k ++ " = NULL"]) params

/-- `$push` loop of `SqliteAdapter.buildSetClause` (lines 402-418): the
serialized value is bound twice, once per placeholder of the CASE. -/
def sqlitePushEntries :
    List (String × JVal) → List String → List JVal → List String × List JVal
  | [], cls, params => (cls, params)
  | (k, v) :: rest, cls, params =>
    sqlitePushEntries rest (cls ++ [sqlitePushClause k])
      (params ++ [jsSerializeForArray v, jsSerializeForArray v])

/-- `$addToSet` loop of `SqliteAdapter.buildSetClause` (lines 421-440):
the serialized value is bound three times. -/
def sqliteAddToSetEntries :
    List (String × JVal) → List String → List JVal → List String × List JVal
  | [], cls, params => (cls, params)
  | (k, v) :: rest, cls, params =>
    sqliteAddToSetEntries rest (cls ++ [sqliteAddToSetClause k])
      (params ++ [jsSerializeForArray v, jsSerializeForArray v, jsSerializeForArray v])

/-- `$pull` loop of `SqliteAdapter.buildSetClause` (lines 443-458). -/
def sqlitePullEntries :
    List (String × JVal) → List String → List JVal → List String × List JVal
  | [], cls, params => (cls, params)
  | (k, v) :: rest, cls, params =>
    sqlitePullEntries rest (cls ++ [sqlitePullClause k])
      (params ++ [jsSerializeForArray v])

/-- Runs one update-operator group: the group runs iff its property value
is truthy (`if (update.$op)`), iterating `Object.entries` of it. -/
def setGroup (update : Obj) (name : String)
    (f : List (String × JVal) → List String → List JVal → List String × List JVal)
    (cls : List String) (params : List JVal) : List String × List JVal :=
  match lookupJ update name with
  | some v => if jsTruthy v then f (jsEntries v) cls params else (cls, params)
  | none => (cls, params)

/-- `SqliteAdapter.buildSetClause` (sqlite_adapter lines 341-462): the
operator groups run in the fixed textual order `$set`, `$inc`, `$unset`,
`$push`, `$addToSet`, `$pull` (there is no `$mul`, `$min` or `$max`
handling in this override), and the fragments are comma-joined. -/
def sqliteBuildSetClause (update : Obj) (params : List JVal) :
    String × List JVal :=
  let st := setGroup update "$set" sqliteSetEntries [] params
  let st := setGroup update "$inc" sqliteIncEntries st.1 st.2
  let st := setGroup update "$unset" sqliteUnsetEntries st.1 st.2
  let st := setGroup update "$push" sqlitePushEntries st.1 st.2
  let st := setGroup update "$addToSet" sqliteAddToSetEntries st.1 st.2
  let st := setGroup update "$pull" sqlitePullEntries st.1 st.2
  (String.intercalate ", " st.1, st.2)

/-- `$set` loop of `BaseSqlAdapter.buildSetClause` (base_adapter lines
367-378 plus `buildNestedSetClause` lines 452-473, with the SQLite
implementations of the dialect hooks `buildArrayElementSetClause` and
`buildObjectPropertySetClause`, sqlite_adapter lines 1507-1542): unlike
the SQLite override, plain values go through `serializeValue`. -/
def baseSetEntries :
    List (String × JVal) → List String → List JVal → List String × List JVal
  | [], cls, params => (cls, params)
  | (k, v) :: rest, cls, params =>
    if hasDotChar k then
      let parts := splitDots k
      let rootField := parts.headD k
      if parts.length ≥ 2 && jsIsNumericSegment (parts.getD 1 "") then
        let arrayIndex := jsSegmentToNat (parts.getD 1 "")
        if parts.length = 2 then
          baseSetEntries rest
            (cls ++ [sqEscape rootField ++ " = json_set(" ++ sqEscape rootField ++
              ", '$[' || ? || ']', ?)"])
            (params ++ [.vNum (arrayIndex : Int), v])
        else
          let propertyPath := String.intercalate "." (parts.drop 2)
          baseSetEntries rest
            (cls ++ [sqEscape rootField ++ " = json_set(" ++ sqEscape rootField ++
              ", '$[' || ? || ']." ++ propertyPath ++ "', ?)"])
            (params ++ [.vNum (arrayIndex : Int), v])
      else
        let propertyPath := String.intercalate "." parts.tail
        baseSetEntries rest
          (cls ++ [sqEscape rootField ++ " = json_set(" ++ sqEscape rootField ++
            ", '$." ++ propertyPath ++ "', ?)"])
          (params ++ [v])
    else
      baseSetEntries rest (cls ++ [sqEscape k ++ " = ?"])
        (params ++ [serializeValue v])

/-- `$mul` loop of the base builder (base_adapter lines 389-394). -/
def baseMulEntries :
    List (String × JVal) → List String → List JVal → List String × List JVal
  | [], cls, params => (cls, params)
  | (k, v) :: rest, cls, params =>
    baseMulEntries rest
      (cls ++ [sqEscape k ++ " = " ++ sqEscape k ++ " * ?"]) (params ++ [v])

/-- `$min` loop of the base builder (base_adapter lines 404-409): one
serialized value bound, with the same positional placeholder rendered at
two spots of the CASE expression. -/
def baseMinEntries :
    List (String × JVal) → List String → List JVal → List String × List JVal
  | [], cls, params => (cls, params)
  | (k, v) :: rest, cls, params =>
    baseMinEntries rest
      (cls ++ [sqEscape k ++ " = CASE WHEN " ++ sqEscape k ++ " > ? OR " ++
        sqEscape k ++ " IS NULL THEN ? ELSE " ++ sqEscape k ++ " END"])
      (params ++ [serializeValue v])

/-- `$max` loop of the base builder (base_adapter lines 412-417). -/
def baseMaxEntries :
    List (String × JVal) → List String → List JVal → List String × List JVal
  | [], cls, params => (cls, params)
  | (k, v) :: rest, cls, params =>
    baseMaxEntries rest
      (cls ++ [sqEscape k ++ " = CASE WHEN " ++ sqEscape k ++ " < ? OR " ++
        sqEscape k ++ " IS NULL THEN ? ELSE " ++ sqEscape k ++ " END"])
      (params ++ [serializeValue v])

/-- The `$push` CASE emitted by `SqliteAdapter.buildPushOperation`
(sqlite_adapter lines 1548-1567), the hook the base builder calls. -/
def basePushClause (k : String) : String :=
  sqEscape k ++ " = CASE \n        WHEN " ++ sqEscape k ++
    " IS NULL \n        THEN json_array(?) \n        ELSE json_insert(" ++
    sqEscape k ++ ", '$[#]', ?) \n      END"

/-- The `$addToSet` CASE emitted by `SqliteAdapter.buildAddToSetOperation`
(sqlite_adapter lines 1573-1595). -/
def baseAddToSetClause (k : String) : String :=
  sqEscape k ++ " = CASE \n        WHEN " ++ sqEscape k ++
    " IS NULL \n        THEN json_array(?) \n        WHEN NOT EXISTS(SELECT 1 FROM json_each(" ++
    sqEscape k ++ ") WHERE json_each.value = ?) \n        THEN json_insert(" ++
    sqEscape k ++ ", '$[#]', ?) \n        ELSE " ++ sqEscape k ++
    " \n      END"

/-- The `$pull` expression emitted by `SqliteAdapter.buildPullOperation`
(sqlite_adapter lines 1601-1619). -/
def basePullClause (k : String) : String :=
  sqEscape k ++ " = (\n          SELECT json_group_array(value) \n        FROM json_each(COALESCE(" ++
    sqEscape k ++ ", json_array())) \n          WHERE value != ?\n      )"

/-- `$push` loop of the base builder (base_adapter lines 420-425): the
base loop serializes, and `buildPushOperation` serializes again (a second
application is the identity on the already-serialized value). -/
def basePushEntries :
    List (String × JVal) → List String → List JVal → List String × List JVal
  | [], cls, params => (cls, params)
  | (k, v) :: rest, cls, params =>
    basePushEntries rest (cls ++ [basePushClause k])
      (params ++ [jsSerializeForArray (jsSerializeForArray v),
        jsSerializeForArray (jsSerializeForArray v)])

/-- `$addToSet` loop of the base builder (base_adapter lines 427-432). -/
def baseAddToSetEntries :
    List (String × JVal) → List String → List JVal → List String × List JVal
  | [], cls, params => (cls, params)
  | (k, v) :: rest, cls, params =>
    baseAddToSetEntries rest (cls ++ [baseAddToSetClause k])
      (params ++ [jsSerializeForArray (jsSerializeForArray v),
        jsSerializeForArray (jsSerializeForArray v),
        jsSerializeForArray (jsSerializeForArray v)])

/-- `$pull` loop of the base builder (base_adapter lines 434-439). -/
def basePullEntries :
    List (String × JVal) → List String → List JVal → List String × List JVal
  | [], cls, params => (cls, params)
  | (k, v) :: rest, cls, params =>
    basePullEntries rest (cls ++ [basePullClause k])
      (params ++ [jsSerializeForArray (jsSerializeForArray v)])

/-- `BaseSqlAdapter.buildSetClause` (base_adapter lines 364-442),
specialized to the SQLite dialect hooks: groups run in the fixed textual
order `$set`, `$inc`, `$mul`, `$unset`, `$min`, `$max`, `$push`,
`$addToSet`, `$pull`, and the fragments are comma-joined. -/
def baseBuildSetClause (update : Obj) (params : List JVal) :
    String × List JVal :=
  let st := setGroup update "$set" baseSetEntries [] params
  let st := setGroup update "$inc" sqliteIncEntries st.1 st.2
  let st := setGroup update "$mul" baseMulEntries st.1 st.2
  let st := setGroup update "$unset" sqliteUnsetEntries st.1 st.2
  let st := setGroup update "$min" baseMinEntries st.1 st.2
  let st := setGroup update "$max" baseMaxEntries st.1 st.2
  let st := setGroup update "$push" basePushEntries st.1 st.2
  let st := setGroup update "$addToSet" baseAddToSetEntries st.1 st.2
  let st := setGroup update "$pull" basePullEntries st.1 st.2
  (String.intercalate ", " st.1, st.2)

/-- `BaseSqlAdapter.translateUpdate` (base_adapter lines 91-102) as
inherited by `SqliteAdapter`: the overridden SET-clause builder and
filter translator are dispatched to, and the filter parameters follow the
SET-clause parameters. -/
def sqliteTranslateUpdate (tableName : String) (update : Obj) (filter : Obj) :
    Except String SqlQuery :=
  let sp := sqliteBuildSetClause update []
  match sqliteTranslateFilter filter with
  | .error e => .error e
  | .ok whereQuery =>
    .ok ⟨"UPDATE " ++ sqEscape tableName ++ " SET " ++ sp.1 ++ " " ++
      whereQuery.sql, sp.2 ++ whereQuery.params⟩

/-- `BaseSqlAdapter.translateDelete` (base_adapter lines 137-146) as
inherited by `SqliteAdapter`. -/
def sqliteTranslateDelete (tableName : String) (filter : Obj) :
    Except String SqlQuery :=
  match sqliteTranslateFilter filter with
  | .error e => .error e
  | .ok whereQuery =>
    .ok ⟨"DELETE FROM " ++ sqEscape tableName ++ " " ++ whereQuery.sql,
      whereQuery.params⟩

/-- `SqliteAdapter.translateInsert` (sqlite_adapter lines 731-768) with
no registered schema: `processDocumentForInsert` reduces the document to
`_id` plus its JSON encoding, and the INSERT is the fixed two-column
form. -/
def sqliteTranslateInsert (tableName : String) (doc : Obj) : SqlQuery :=
  ⟨"INSERT INTO " ++ sqEscape tableName ++ " (\"_id\", \"data\") VALUES (?, ?)",
    [(lookupJ doc "_id").getD .vUndef, .vStr (jsonStr (.vObj doc))]⟩

/-- First occurrences of a string list, in order (a JS `Set` iterates
insertion order, keeping the first occurrence). -/
def dedupFirst : List String → List String
  | [] => []
  | x :: xs => x :: dedupFirst (xs.filter (· ≠ x))
termination_by l => l.length
decreasing_by
  simp only [List.length_cons]
  exact Nat.lt_succ_of_le (List.length_filter_le _ _)

/-- The parent-path set `cleanupDotNotationProperties` collects: first
segments of the dotted keys (sqlite_adapter lines 636-644). -/
def cleanupParents (obj : Obj) : List String :=
  dedupFirst (((obj.map Prod.fst).filter (fun k => hasDotChar k)).map firstSeg)

/-- Deletes every key starting with `parent ++ "."`. -/
def cleanupDelete (p : String) (obj : Obj) : Obj :=
  obj.filter fun kv => !(strPrefix (p ++ ".") kv.1)

/-- The deletion pass of `cleanupDotNotationProperties` (sqlite_adapter
lines 646-657): for each parent path present with a non-null value, drop
all its dotted descendants. -/
def cleanupGo : List String → Obj → Obj
  | [], acc => acc
  | p :: ps, acc =>
    match lookupJ acc p with
    | some .vNull => cleanupGo ps acc
    | some _ => cleanupGo ps (cleanupDelete p acc)
    | none => cleanupGo ps acc

/-- `SqliteAdapter.cleanupDotNotationProperties` (sqlite_adapter lines
634-660), called on every row object of the schema-enabled result path
(line 614 of `processQueryResult`). -/
def cleanupDotNotationProps (obj : Obj) : Obj :=
  cleanupGo (cleanupParents obj) obj

/-- Membership of a value in a JSON array under SQL value equality
(the `EXISTS(SELECT 1 FROM json_each(col) WHERE json_each.value = ?)`
subquery of the `$addToSet` CASE). -/
def memJ (xs : List JVal) (x : JVal) : Bool := xs.any (fun y => jvalBeq y x)

/-- Modelled from the spec: the SQLite JSON1 semantics of the `$addToSet`
CASE expression emitted by `buildSetClause` (`sqliteAddToSetClause`)
applied to the current column value — the SQLite engine that evaluates
the expression is outside this repository.  A NULL column becomes
`json_array(v)`; when the `NOT EXISTS` duplicate check passes,
`json_insert(col, '$[#]', v)` appends `v`; otherwise the column is left
unchanged. -/
def addToSetApply (col : Option (List JVal)) (x : JVal) : Option (List JVal) :=
  match col with
  | none => some [x]
  | some xs => if memJ xs x then some xs else some (xs ++ [x])

/-- Number of `?` characters in a SQL text (the positional value
placeholders of the SQLite dialect; none of the fragments under study
put a bare `?` inside a SQL string literal). -/
def countQ (s : String) : Nat := (s.data.filter (fun c => c = '?')).length

/-! ### General helper lemmas -/

theorem paren_ne_empty (x : String) : ("(" ++ x ++ ")") ≠ "" := by
  intro h
  have h' := congrArg String.data h
  simp [String.data_append] at h'

@[simp] theorem intercalate_single (sep a : String) :
    String.intercalate sep [a] = a := rfl

mutual

theorem jvalBeq_refl : ∀ v, jvalBeq v v = true
  | .vUndef => rfl
  | .vNull => rfl
  | .vBool b => by simp [jvalBeq]
  | .vNum n => by simp [jvalBeq]
  | .vStr s => by simp [jvalBeq]
  | .vArr xs => by simpa [jvalBeq] using jvalBeqList_refl xs
  | .vObj fs => by simpa [jvalBeq] using jvalBeqFields_refl fs

theorem jvalBeqList_refl : ∀ xs, jvalBeqList xs xs = true
  | [] => rfl
  | x :: xs => by
    simp [jvalBeqList, jvalBeq_refl x, jvalBeqList_refl xs]

theorem jvalBeqFields_refl : ∀ fs, jvalBeqFields fs fs = true
  | [] => rfl
  | (k, v) :: fs => by
    simp [jvalBeqFields, jvalBeq_refl v, jvalBeqFields_refl fs]

end

/-! ### Claim C2 — unrecognized operator keys -/

/-- C2, counterexample: the filter `{age: {$foo: 5}}` carries the
operator key `$foo`, which is outside the recognized operator set, yet
`SqliteAdapter.translateFilter` succeeds without any error and silently
drops the operator, producing an empty WHERE clause and no parameters —
contradicting the claim that translation fails with an error. -/
theorem C2_counterexample :
    sqliteTranslateFilter [("age", .vObj [("$foo", .vNum 5)])] = .ok ⟨"", []⟩ := rfl

/-- C2, amended: only the operator keys `$all`, `$elemMatch`, `$size`,
`$type`, `$mod` make the base builder throw (and the SQLite builder
rephrases `$type`/`$mod`); every operator key outside the handled set —
recognized or not — is silently ignored, contributing neither a SQL
condition nor an error, and a filter carrying only such a key translates
to an empty WHERE clause. -/
theorem C2_unrecognized_ops_silently_dropped :
    (∀ col (v : JVal) params,
      baseBuildOperatorConditions col [("$type", v)] params =
        .error "Operator $type not implemented in base adapter" ∧
      baseBuildOperatorConditions col [("$mod", v)] params =
        .error "Operator $mod not implemented in base adapter" ∧
      sqliteBuildOperatorConditions col [("$type", v)] params =
        .error "Operator $type not implemented for SQLite" ∧
      sqliteBuildOperatorConditions col [("$mod", v)] params =
        .error "Operator $mod not implemented for SQLite") ∧
    (∀ (op : String) col (v : JVal) params,
      op ∉ (["$eq", "$ne", "$gt", "$gte", "$lt", "$lte", "$in", "$nin",
        "$exists", "$regex", "$all", "$elemMatch", "$size", "$type",
        "$mod"] : List String) →
      baseBuildOperatorConditions col [(op, v)] params = .ok ("", params) ∧
      sqliteBuildOperatorConditions col [(op, v)] params = .ok ("", params)) ∧
    sqliteTranslateFilter [("age", .vObj [("$foo", .vNum 5)])] = .ok ⟨"", []⟩ := by
  refine ⟨fun col v params => ⟨rfl, rfl, rfl, rfl⟩, ?_, rfl⟩
  intro op col v params h
  simp only [List.mem_cons, List.not_mem_nil, or_false, not_or] at h
  obtain ⟨h1, h2, h3, h4, h5, h6, h7, h8, h9, h10, h11, h12, h13, h14, h15⟩ := h
  have hbase : baseBuildOperatorConditions col [(op, v)] params = .ok ("", params) := by
    simp [baseBuildOperatorConditions, baseOpConds,
      h1, h2, h3, h4, h5, h6, h7, h8, h9, h10, h11, h12, h13, h14, h15]
  refine ⟨hbase, ?_⟩
  simp [sqliteBuildOperatorConditions, sqliteOpConds, hbase,
    h10, h11, h12, h13]

/-- C2, witness: the amended theorem applied at the concrete operator
key `$foo` with value `5`. -/
theorem C2_witness :
    baseBuildOperatorConditions "\"age\"" [("$foo", .vNum 5)] [] = .ok ("", []) ∧
    sqliteBuildOperatorConditions "\"age\"" [("$foo", .vNum 5)] [] = .ok ("", []) :=
  C2_unrecognized_ops_silently_dropped.2.1 "$foo" "\"age\"" (.vNum 5) [] (by decide)

/-! ### Claim C3 — null `$eq`/`$ne` -/

/-- C3, counterexample: the MySQL adapter's operator condition builder
(`MySqlAdapter.buildOperatorConditions`) translates `$eq: null` to the
placeholder comparison `` `age` = ? `` binding a null parameter, not to
`` `age` IS NULL`` — so the claim does not hold for every dialect
adapter's builder. -/
theorem C3_counterexample :
    mysqlBuildOperatorConditions "age" [("$eq", .vNull)] [] =
      ("\x60age\x60 = ?", [.vNull]) ∧
    "\x60age\x60 = ?" ≠ "\x60age\x60 IS NULL" := by
  exact ⟨rfl, by decide⟩

/-- C3, amended: the base adapter's builder and (through its fallback)
the SQLite builder emit `col IS NULL` for `$eq: null` and
`col IS NOT NULL` for `$ne: null`; the MySQL and PostgreSQL builders
have no null special case and emit an ordinary placeholder comparison
binding a null parameter. -/
theorem C3_null_eq_translation :
    ∀ col (params : List JVal),
      baseBuildOperatorConditions col [("$eq", .vNull)] params =
        .ok ("(" ++ (col ++ " IS NULL") ++ ")", params) ∧
      baseBuildOperatorConditions col [("$ne", .vNull)] params =
        .ok ("(" ++ (col ++ " IS NOT NULL") ++ ")", params) ∧
      sqliteBuildOperatorConditions col [("$eq", .vNull)] params =
        .ok ("(" ++ (col ++ " IS NULL") ++ ")", params) ∧
      sqliteBuildOperatorConditions col [("$ne", .vNull)] params =
        .ok ("(" ++ (col ++ " IS NOT NULL") ++ ")", params) ∧
      mysqlBuildOperatorConditions col [("$eq", .vNull)] params =
        (myEscape col ++ " = ?", params ++ [.vNull]) ∧
      mysqlBuildOperatorConditions col [("$ne", .vNull)] params =
        (myEscape col ++ " != ?", params ++ [.vNull]) ∧
      pgBuildOperatorConditions col [("$eq", .vNull)] params =
        (sqEscape col ++ " = " ++ pgPlaceholder params.length, params ++ [.vNull]) ∧
      pgBuildOperatorConditions col [("$ne", .vNull)] params =
        (sqEscape col ++ " != " ++ pgPlaceholder params.length, params ++ [.vNull]) := by
  intro col params
  have heq : baseBuildOperatorConditions col [("$eq", .vNull)] params =
      .ok ("(" ++ (col ++ " IS NULL") ++ ")", params) := rfl
  have hne : baseBuildOperatorConditions col [("$ne", .vNull)] params =
      .ok ("(" ++ (col ++ " IS NOT NULL") ++ ")", params) := rfl
  refine ⟨heq, hne, ?_, ?_, rfl, rfl, rfl, rfl⟩
  · simp [sqliteBuildOperatorConditions, sqliteOpConds, heq,
      paren_ne_empty (col ++ " IS NULL")]
  · simp [sqliteBuildOperatorConditions, sqliteOpConds, hne,
      paren_ne_empty (col ++ " IS NOT NULL")]

/-! ### Claim C4 — SET fragment order -/

/-- C4, counterexample: for the update `{$pull: {a: 1}, $addToSet:
{b: 2}}` the SQLite SET-clause builder emits the `$addToSet` fragment
before the `$pull` fragment, contradicting the claimed fixed order
`..., $push, $pull, $addToSet`; and for `{$min: {a: 5}}` it generates no
fragment at all, contradicting the claim that every listed operator
generates its own fragment. -/
theorem C4_counterexample :
    (sqliteBuildSetClause
        [("$pull", .vObj [("a", .vNum 1)]), ("$addToSet", .vObj [("b", .vNum 2)])]
        []).1 =
      sqliteAddToSetClause "b" ++ ", " ++ sqlitePullClause "a" ∧
    sqliteAddToSetClause "b" ++ ", " ++ sqlitePullClause "a" ≠
      sqlitePullClause "a" ++ ", " ++ sqliteAddToSetClause "b" ∧
    (sqliteBuildSetClause [("$min", .vObj [("a", .vNum 5)])] []).1 = "" := by
  exact ⟨rfl, by decide, rfl⟩

/-- C4, amended: SET fragments are comma-joined in the builder's fixed
textual order — `$set, $inc, $mul, $unset, $min, $max, $push, $addToSet,
$pull` for the base builder and `$set, $inc, $unset, $push, $addToSet,
$pull` for the SQLite override, which handles no `$mul`, `$min` or
`$max` — with each handled operator generating its own independent
fragment, regardless of the insertion order of the update spec. -/
theorem C4_set_fragment_order :
    ∀ v1 v2 v3 v4 v5 v6 v7 v8 v9 : JVal,
      (baseBuildSetClause
          [("$pull", .vObj [("i", v9)]), ("$addToSet", .vObj [("h", v8)]),
           ("$push", .vObj [("g", v7)]), ("$max", .vObj [("f", v6)]),
           ("$min", .vObj [("e", v5)]), ("$unset", .vObj [("d", v4)]),
           ("$mul", .vObj [("c", v3)]), ("$inc", .vObj [("b", v2)]),
           ("$set", .vObj [("a", v1)])]
          []).1 =
        "\"a\" = ?, \"b\" = \"b\" + ?, \"c\" = \"c\" * ?, \"d\" = NULL, " ++
          "\"e\" = CASE WHEN \"e\" > ? OR \"e\" IS NULL THEN ? ELSE \"e\" END, " ++
          "\"f\" = CASE WHEN \"f\" < ? OR \"f\" IS NULL THEN ? ELSE \"f\" END, " ++
          basePushClause "g" ++ ", " ++ baseAddToSetClause "h" ++ ", " ++
          basePullClause "i" ∧
      (sqliteBuildSetClause
          [("$pull", .vObj [("f", v6)]), ("$addToSet", .vObj [("e", v5)]),
           ("$push", .vObj [("d", v4)]), ("$unset", .vObj [("c", v3)]),
           ("$inc", .vObj [("b", v2)]), ("$set", .vObj [("a", v1)])]
          []).1 =
        "\"a\" = ?, \"b\" = \"b\" + ?, \"c\" = NULL, " ++
          sqlitePushClause "d" ++ ", " ++ sqliteAddToSetClause "e" ++ ", " ++
          sqlitePullClause "f" := by
  intro v1 v2 v3 v4 v5 v6 v7 v8 v9
  exact ⟨rfl, rfl⟩

/-! ### Claim C10 — placeholder/parameter consistency -/

/-- C10, failing input: on the filter `{b: [[1,2],[3]], tags: {$in:
["x"]}}` the SQLite `translateFilter` emits a sql text with four `?`
placeholders but only two parameters: `handleArrayFieldQuery` indexes
the parameter list by match ordinal instead of parameter position, takes
the parameter `[1,2]` belonging to `"b"` for the `"tags" IN (?)` match,
splices its elements in, and discards the remaining parameters. -/
theorem C10_failing_input_evaluation :
    sqliteTranslateFilter
        [("b", .vArr [.vArr [.vNum 1, .vNum 2], .vArr [.vNum 3]]),
         ("tags", .vObj [("$in", .vArr [.vStr "x"])])] =
      .ok ⟨"WHERE \"b\" IN (?, ?) AND (EXISTS (SELECT 1 FROM json_each(\"tags\") WHERE value IN (?, ?)))",
        [.vNum 1, .vNum 2]⟩ ∧
    countQ "WHERE \"b\" IN (?, ?) AND (EXISTS (SELECT 1 FROM json_each(\"tags\") WHERE value IN (?, ?)))" = 4 ∧
    [JVal.vNum 1, .vNum 2].length = 2 := by
  exact ⟨rfl, rfl, rfl⟩

/-! ### Claim C8 — idempotent `$addToSet` -/

/-- C8: for every field and value, `buildSetClause` renders `$addToSet`
as the single guarded CASE expression `sqliteAddToSetClause` binding the
serialized value three times, and under the JSON1 semantics of that CASE
(NULL column → singleton array; `NOT EXISTS` duplicate check → append;
otherwise unchanged) applying the update twice yields the same array as
applying it once. -/
theorem C8_addToSet_idempotent :
    (∀ (f : String) (v : JVal),
      sqliteBuildSetClause [("$addToSet", .vObj [(f, v)])] [] =
        (sqliteAddToSetClause f,
          [jsSerializeForArray v, jsSerializeForArray v, jsSerializeForArray v])) ∧
    (∀ (col : Option (List JVal)) (x : JVal),
      addToSetApply (addToSetApply col x) x = addToSetApply col x) := by
  constructor
  · intro f v
    rfl
  · intro col x
    match col with
    | none =>
      simp [addToSetApply, memJ, jvalBeq_refl x]
    | some xs =>
      cases h : memJ xs x with
      | true => simp [addToSetApply, h]
      | false =>
        have h2 : memJ (xs ++ [x]) x = true := by
          simp [memJ, jvalBeq_refl x]
        simp [addToSetApply, h, h2]

/-! ### Claim C5 — empty `$in`/`$nin` -/

/-- Stepping lemma: `sqliteTranslateFilter` unfolded through its stages. -/
theorem translateFilter_steps (filter : Obj) (h1 : filter.isEmpty = false)
    (ff : Obj) (h2 : hnList (preprocessFilter filter) = .ok ff)
    (conds : List String) (ps : List JVal) (h3 : bwcff ff [] [] = .ok (conds, ps)) :
    sqliteTranslateFilter filter =
      .ok (handleArrayFieldQuery
        (if jsTrim (String.intercalate " AND " conds) ≠ "" then
          "WHERE " ++ String.intercalate " AND " conds
         else String.intercalate " AND " conds) ps) := by
  simp [sqliteTranslateFilter, h1, h2, h3]

/-- C5: for every field name `f` (any non-operator key), the filter
`{f: {$in: []}}` translates to the constant-false WHERE clause
`WHERE (FALSE)` matching zero rows, and `{f: {$nin: []}}` to the
constant-true `WHERE (TRUE)` matching all rows, with no parameters. -/
theorem C5_empty_in_nin :
    ∀ f : String, strStarts f "$" = false →
      sqliteTranslateFilter [(f, .vObj [("$in", .vArr [])])] =
        .ok ⟨"WHERE (FALSE)", []⟩ ∧
      sqliteTranslateFilter [(f, .vObj [("$nin", .vArr [])])] =
        .ok ⟨"WHERE (TRUE)", []⟩ := by
  intro f hf
  have hin : strStarts "$in" "$" = true := rfl
  have hnin : strStarts "$nin" "$" = true := rfl
  constructor
  · have h2 : hnList (preprocessFilter [(f, .vObj [("$in", .vArr [])])]) =
        .ok [(f, .vObj [("$in", .vArr [])])] := by
      simp [preprocessFilter, preprocessVal, hnList, hf]
    have h3 : bwcff [(f, .vObj [("$in", .vArr [])])] [] [] = .ok (["(FALSE)"], []) := by
      simp [bwcff, hf, hin, bwcffFieldOps, sqliteBuildOperatorConditions,
        sqliteOpConds, baseBuildOperatorConditions, baseOpConds]
    rw [translateFilter_steps _ (by rfl) _ h2 _ _ h3]
    rfl
  · have h2 : hnList (preprocessFilter [(f, .vObj [("$nin", .vArr [])])]) =
        .ok [(f, .vObj [("$nin", .vArr [])])] := by
      simp [preprocessFilter, preprocessVal, hnList, hf]
    have h3 : bwcff [(f, .vObj [("$nin", .vArr [])])] [] [] = .ok (["(TRUE)"], []) := by
      simp [bwcff, hf, hnin, bwcffFieldOps, sqliteBuildOperatorConditions,
        sqliteOpConds, baseBuildOperatorConditions, baseOpConds]
    rw [translateFilter_steps _ (by rfl) _ h2 _ _ h3]
    rfl

/-- C5, witness: the theorem applied at the concrete field `age`. -/
theorem C5_witness :
    sqliteTranslateFilter [("age", .vObj [("$in", .vArr [])])] =
      .ok ⟨"WHERE (FALSE)", []⟩ ∧
    sqliteTranslateFilter [("age", .vObj [("$nin", .vArr [])])] =
      .ok ⟨"WHERE (TRUE)", []⟩ :=
  C5_empty_in_nin "age" rfl

/-! ### Claim C6 — several operators on one field -/

/-- The simple comparison operators of the base builder. -/
def simpleCmpOp (o : String) : Bool :=
  o = "$eq" || o = "$ne" || o = "$gt" || o = "$gte" || o = "$lt" || o = "$lte"

/-- The condition tail the base builder emits for each simple comparison
operator. -/
def cmpSql (o : String) : String :=
  if o = "$eq" then " = ?"
  else if o = "$ne" then " <> ?"
  else if o = "$gt" then " > ?"
  else if o = "$gte" then " >= ?"
  else if o = "$lt" then " < ?"
  else " <= ?"

/-- Is the value something other than `null`? -/
def notNullV : JVal → Bool
  | .vNull => false
  | _ => true

theorem baseOpConds_simple_step (col o : String) (v : JVal)
    (conds : List String) (params : List JVal) (rest : List (String × JVal))
    (ho : simpleCmpOp o = true) (hv : v ≠ .vNull) :
    baseOpConds col ((o, v) :: rest) conds params =
      baseOpConds col rest (conds ++ [col ++ cmpSql o])
        (params ++ [serializeValue v]) := by
  simp only [simpleCmpOp, Bool.or_eq_true, decide_eq_true_eq] at ho
  rcases ho with ⟨⟨⟨⟨ho | ho⟩ | ho⟩ | ho⟩ | ho⟩ | ho <;> subst ho <;>
    cases v <;> first
      | exact absurd rfl hv
      | simp [baseOpConds, cmpSql]

theorem baseOpConds_simple (col : String) (ops : List (String × JVal)) :
    ∀ (conds : List String) (params : List JVal),
      (ops.all fun p => simpleCmpOp p.1 && notNullV p.2) = true →
      baseOpConds col ops conds params =
        .ok (conds ++ ops.map fun p => col ++ cmpSql p.1,
             params ++ ops.map fun p => serializeValue p.2) := by
  induction ops with
  | nil => intro conds params _; simp [baseOpConds]
  | cons hd tl ih =>
    intro conds params h
    obtain ⟨o, v⟩ := hd
    simp only [List.all_cons, Bool.and_eq_true] at h
    obtain ⟨⟨ho, hv⟩, htl⟩ := h
    have hvnull : v ≠ .vNull := by
      intro hh; subst hh; simp [notNullV] at hv
    rw [baseOpConds_simple_step col o v conds params tl ho hvnull,
      ih _ _ htl]
    simp

/-- C6: when one field's operator map holds several of the simple
comparison operators (non-null values), the base builder's conditions
are AND-joined in operator-map order with the parameters appended in the
same order; and concretely the SQLite `translateFilter` on
`{age: {$gte: 25, $lte: 35}}` yields the WHERE body
`("age" >= ?) AND ("age" <= ?)` — equivalent to
`"age" >= ? AND "age" <= ?` — with params `[25, 35]` in that order. -/
theorem C6_operator_map_and_order :
    (∀ col (ops : List (String × JVal)) (params : List JVal),
      ops ≠ [] →
      (ops.all fun p => simpleCmpOp p.1 && notNullV p.2) = true →
      baseBuildOperatorConditions col ops params =
        .ok ("(" ++ String.intercalate " AND "
              (ops.map fun p => col ++ cmpSql p.1) ++ ")",
             params ++ ops.map fun p => serializeValue p.2)) ∧
    sqliteTranslateFilter [("age", .vObj [("$gte", .vNum 25), ("$lte", .vNum 35)])] =
      .ok ⟨"WHERE (\"age\" >= ?) AND (\"age\" <= ?)", [.vNum 25, .vNum 35]⟩ := by
  constructor
  · intro col ops params hne h
    have := baseOpConds_simple col ops [] params h
    simp only [List.nil_append] at this
    simp [baseBuildOperatorConditions, this, List.isEmpty_iff, hne]
  · rfl

/-- C6, witness: the general statement applied to the operator map of
the concrete scenario. -/
theorem C6_witness :
    baseBuildOperatorConditions "\"age\"" [("$gte", .vNum 25), ("$lte", .vNum 35)] [] =
      .ok ("(\"age\" >= ? AND \"age\" <= ?)", [.vNum 25, .vNum 35]) := by
  have h := C6_operator_map_and_order.1 "\"age\""
    [("$gte", .vNum 25), ("$lte", .vNum 35)] [] (List.cons_ne_nil _ _) (by decide)
  exact h

/-! ### Claim C7 — SQLite `$regex` to LIKE -/

/-- C7: the SQLite builder translates `$regex` with pattern `p` into a
`LIKE` condition whose single bound parameter is `sqliteLikePattern p`:
a leading `^` is stripped (otherwise `%` is prepended) and, when the
pattern ends with `$`, the final character — the `$` — is stripped
(otherwise `%` is appended); thus an unanchored pattern `p` becomes
`%p%`. -/
theorem C7_regex_like_pattern :
    ∀ col (p : String) (params : List JVal),
      sqliteBuildOperatorConditions col [("$regex", .vStr p)] params =
        .ok (col ++ " LIKE ?", params ++ [.vStr (sqliteLikePattern p)]) ∧
      (strStarts p "^" = false → strEnds p "$" = false →
        sqliteLikePattern p = "%" ++ p ++ "%") ∧
      (strStarts p "^" = true → strEnds p "$" = false →
        (sqliteLikePattern p).data = p.data.drop 1 ++ ['%']) ∧
      (strStarts p "^" = false → strEnds p "$" = true →
        (sqliteLikePattern p).data = ('%' :: p.data).dropLast) ∧
      (strStarts p "^" = true → strEnds p "$" = true →
        (sqliteLikePattern p).data = (p.data.drop 1).dropLast) := by
  intro col p params
  refine ⟨rfl, ?_, ?_, ?_, ?_⟩
  · intro h1 h2
    simp [sqliteLikePattern, h1, h2, String.append_assoc]
  · intro h1 h2
    simp [sqliteLikePattern, h1, h2, String.data_append]
  · intro h1 h2
    simp [sqliteLikePattern, h1, h2, String.data_append]
  · intro h1 h2
    simp [sqliteLikePattern, h1, h2]

/-- C7, witness: the theorem applied at the unanchored pattern `abc`
and at the anchored pattern `^ab$`. -/
theorem C7_witness :
    sqliteBuildOperatorConditions "\"name\"" [("$regex", .vStr "abc")] [] =
      .ok ("\"name\" LIKE ?", [.vStr (sqliteLikePattern "abc")]) ∧
    sqliteLikePattern "abc" = "%" ++ "abc" ++ "%" ∧
    (sqliteLikePattern "^ab$").data = ("ab$".data).dropLast :=
  ⟨(C7_regex_like_pattern "\"name\"" "abc" []).1,
   (C7_regex_like_pattern "\"name\"" "abc" []).2.1 rfl rfl,
   (C7_regex_like_pattern "col" "^ab$" []).2.2.2.2 rfl rfl⟩

/-! ### Claim C9 — dropping flattened dot-notation keys -/

theorem lookupJ_cleanupDelete (q : String) (l : Obj) (key : String) :
    lookupJ (cleanupDelete q l) key =
      if strPrefix (q ++ ".") key = true then none else lookupJ l key := by
  induction l with
  | nil =>
    by_cases h : strPrefix (q ++ ".") key = true <;>
      simp [cleanupDelete, lookupJ, h]
  | cons hd tl ih =>
    obtain ⟨k, v⟩ := hd
    simp only [cleanupDelete, List.filter_cons] at ih ⊢
    by_cases hpk : strPrefix (q ++ ".") k = true
    · rw [if_neg (by simp [hpk])]
      rw [ih]
      by_cases hk : k = key
      · subst hk
        simp [hpk, lookupJ]
      · simp [lookupJ, hk]
    · rw [if_pos (by simp [hpk])]
      by_cases hk : k = key
      · subst hk
        simp [lookupJ, hpk]
      · simp only [lookupJ, hk, if_false]
        exact ih

theorem strPrefix_dot_hasDot (q key : String)
    (h : strPrefix (q ++ ".") key = true) : hasDotChar key = true := by
  unfold strPrefix at h
  rw [List.isPrefixOf_iff_prefix] at h
  obtain ⟨t, ht⟩ := h
  unfold hasDotChar
  rw [← ht]
  simp [String.data_append]

theorem lookupJ_cleanupGo_dotfree (ps : List String) (acc : Obj) (key : String)
    (hk : hasDotChar key = false) :
    lookupJ (cleanupGo ps acc) key = lookupJ acc key := by
  induction ps generalizing acc with
  | nil => rfl
  | cons q qs ih =>
    have hpref : strPrefix (q ++ ".") key = false := by
      cases hsp : strPrefix (q ++ ".") key
      · rfl
      · exact absurd (strPrefix_dot_hasDot _ _ hsp) (by simp [hk])
    simp only [cleanupGo]
    cases hq : lookupJ acc q with
    | none => exact ih acc
    | some v =>
      cases v <;>
        first
          | exact ih acc
          | (rw [ih (cleanupDelete q acc), lookupJ_cleanupDelete]
             simp [hpref])

theorem lookupJ_cleanupGo_none (ps : List String) (acc : Obj) (key : String)
    (h : lookupJ acc key = none) :
    lookupJ (cleanupGo ps acc) key = none := by
  induction ps generalizing acc with
  | nil => exact h
  | cons q qs ih =>
    simp only [cleanupGo]
    cases hq : lookupJ acc q with
    | none => exact ih acc h
    | some v =>
      cases v <;>
        first
          | exact ih acc h
          | (refine ih (cleanupDelete q acc) ?_
             rw [lookupJ_cleanupDelete]
             split <;> simp [h])

theorem lookupJ_some_mem (l : Obj) (key : String) (v : JVal)
    (h : lookupJ l key = some v) : key ∈ l.map Prod.fst := by
  induction l with
  | nil => simp [lookupJ] at h
  | cons hd tl ih =>
    obtain ⟨k, w⟩ := hd
    by_cases hk : k = key
    · subst hk; simp
    · simp only [lookupJ, hk, if_false] at h
      simp [ih h]

theorem mem_dedupFirst : ∀ (l : List String), ∀ x ∈ l, x ∈ dedupFirst l := by
  intro l
  induction l using dedupFirst.induct with
  | case1 => intro x hx; simp at hx
  | case2 y ys ih =>
    intro x hx
    rw [dedupFirst]
    rcases List.mem_cons.mp hx with h | h
    · subst h; exact List.mem_cons_self _ _
    · by_cases hxy : x = y
      · subst hxy; exact List.mem_cons_self _ _
      · exact List.mem_cons.mpr (Or.inr (ih x (List.mem_filter.mpr ⟨h, by simp [hxy]⟩)))

theorem dedupFirst_subset : ∀ (l : List String), ∀ x ∈ dedupFirst l, x ∈ l := by
  intro l
  induction l using dedupFirst.induct with
  | case1 => intro x hx; rw [dedupFirst] at hx; exact hx
  | case2 y ys ih =>
    intro x hx
    rw [dedupFirst] at hx
    rcases List.mem_cons.mp hx with h | h
    · subst h; exact List.mem_cons_self _ _
    · exact List.mem_cons.mpr (Or.inr (List.mem_filter.mp (ih x h)).1)

theorem takeWhile_dotfree_append (l r : List Char)
    (hl : ∀ ch ∈ l, ch ≠ '.') :
    List.takeWhile (fun ch => decide (ch ≠ '.')) (l ++ '.' :: r) = l := by
  induction l with
  | nil => simp [List.takeWhile]
  | cons a as ih =>
    have ha : a ≠ '.' := hl a (List.mem_cons_self _ _)
    simp only [List.cons_append, List.takeWhile_cons]
    rw [if_pos (by simp [ha]), ih (fun ch hch => hl ch (List.mem_cons_of_mem _ hch))]

theorem dotfree_chars (p : String) (hp : hasDotChar p = false) :
    ∀ ch ∈ p.data, ch ≠ '.' := by
  intro ch hch
  unfold hasDotChar at hp
  rw [List.any_eq_false] at hp
  have := hp ch hch
  simpa using this

theorem data_dot_concat (p c : String) :
    (p ++ "." ++ c).data = p.data ++ '.' :: c.data := by
  simp [String.data_append]

theorem firstSeg_concat (p c : String) (hp : hasDotChar p = false) :
    firstSeg (p ++ "." ++ c) = p := by
  unfold firstSeg
  rw [data_dot_concat, takeWhile_dotfree_append _ _ (dotfree_chars p hp)]

theorem hasDot_concat (p c : String) : hasDotChar (p ++ "." ++ c) = true := by
  unfold hasDotChar
  rw [data_dot_concat]
  simp

theorem firstSeg_dotfree (s : String) : hasDotChar (firstSeg s) = false := by
  unfold firstSeg hasDotChar
  rw [List.any_eq_false]
  intro c hc
  have := List.mem_takeWhile_imp hc
  simpa using this

theorem cleanupParents_dotfree (obj : Obj) :
    ∀ q ∈ cleanupParents obj, hasDotChar q = false := by
  intro q hq
  have hmem := dedupFirst_subset _ _ hq
  rw [List.mem_map] at hmem
  obtain ⟨k, _, hk⟩ := hmem
  rw [← hk]
  exact firstSeg_dotfree k

theorem strPrefix_self_dot (p c : String) :
    strPrefix (p ++ ".") (p ++ "." ++ c) = true := by
  unfold strPrefix
  rw [List.isPrefixOf_iff_prefix, data_dot_concat, String.data_append]
  exact ⟨c.data, by simp⟩

theorem prefix_dotfree_unique (q p c : String) (hq : hasDotChar q = false)
    (hp : hasDotChar p = false)
    (h : strPrefix (q ++ ".") (p ++ "." ++ c) = true) : q = p := by
  unfold strPrefix at h
  rw [List.isPrefixOf_iff_prefix] at h
  obtain ⟨t, ht⟩ := h
  have h2 : firstSeg (p ++ "." ++ c) = q := by
    unfold firstSeg
    rw [data_dot_concat] at ht ⊢
    rw [← ht]
    have : (q ++ ".").data ++ t = q.data ++ '.' :: t := by
      simp [String.data_append]
    rw [this, takeWhile_dotfree_append _ _ (dotfree_chars q hq)]
  rw [firstSeg_concat p c hp] at h2
  exact h2.symm

theorem cleanupGo_deletes (key p : String)
    (hp : hasDotChar p = false) (hpref : strPrefix (p ++ ".") key = true) :
    ∀ (ps : List String) (acc : Obj) (v : JVal), p ∈ ps →
      lookupJ acc p = some v → v ≠ .vNull →
      lookupJ (cleanupGo ps acc) key = none := by
  intro ps
  induction ps with
  | nil => intro acc v hmem; simp at hmem
  | cons q qs ih =>
    intro acc v hmem hv hnn
    simp only [cleanupGo]
    by_cases hqp : q = p
    · subst hqp
      rw [hv]
      have hdel : lookupJ (cleanupDelete q acc) key = none := by
        rw [lookupJ_cleanupDelete]
        simp [hpref]
      cases v <;> first
        | exact absurd rfl hnn
        | exact lookupJ_cleanupGo_none _ _ _ hdel
    · have hmem' : p ∈ qs := by
        rcases List.mem_cons.mp hmem with h | h
        · exact absurd h.symm hqp
        · exact h
      cases hq : lookupJ acc q with
      | none => exact ih acc v hmem' hv hnn
      | some w =>
        have hv' : lookupJ (cleanupDelete q acc) p = some v := by
          rw [lookupJ_cleanupDelete]
          have : strPrefix (q ++ ".") p = false := by
            cases hsp : strPrefix (q ++ ".") p
            · rfl
            · exact absurd (strPrefix_dot_hasDot _ _ hsp) (by simp [hp])
          simp [this, hv]
        cases w <;> first
          | exact ih acc v hmem' hv hnn
          | exact ih (cleanupDelete q acc) v hmem' hv' hnn

theorem cleanupGo_keeps (p c : String) (hp : hasDotChar p = false) :
    ∀ (ps : List String) (acc : Obj),
      (∀ q ∈ ps, hasDotChar q = false) →
      (lookupJ acc p = none ∨ lookupJ acc p = some .vNull) →
      lookupJ (cleanupGo ps acc) (p ++ "." ++ c) = lookupJ acc (p ++ "." ++ c) := by
  intro ps
  induction ps with
  | nil => intro acc _ _; rfl
  | cons q qs ih =>
    intro acc hdf hnull
    have hqdf : hasDotChar q = false := hdf q (List.mem_cons_self _ _)
    have hdf' : ∀ r ∈ qs, hasDotChar r = false :=
      fun r hr => hdf r (List.mem_cons_of_mem _ hr)
    simp only [cleanupGo]
    cases hq : lookupJ acc q with
    | none => exact ih acc hdf' hnull
    | some w =>
      have hqp : q ≠ p ∨ w = .vNull := by
        by_cases hqp : q = p
        · subst hqp
          rcases hnull with h | h
          · rw [hq] at h; cases h
          · rw [hq] at h; exact Or.inr (Option.some.inj h)
        · exact Or.inl hqp
      cases w with
      | vNull => exact ih acc hdf' hnull
      | _ =>
        have hqp' : q ≠ p := by
          rcases hqp with h | h
          · exact h
          · cases h
        have hkeep : strPrefix (q ++ ".") (p ++ "." ++ c) = false := by
          cases hsp : strPrefix (q ++ ".") (p ++ "." ++ c)
          · rfl
          · exact absurd (prefix_dotfree_unique q p c hqdf hp hsp) hqp'
        have hstep : lookupJ (cleanupDelete q acc) (p ++ "." ++ c) =
            lookupJ acc (p ++ "." ++ c) := by
          rw [lookupJ_cleanupDelete]; simp [hkeep]
        have hpstep : lookupJ (cleanupDelete q acc) p = lookupJ acc p := by
          rw [lookupJ_cleanupDelete]
          have : strPrefix (q ++ ".") p = false := by
            cases hsp : strPrefix (q ++ ".") p
            · rfl
            · exact absurd (strPrefix_dot_hasDot _ _ hsp) (by simp [hp])
          simp [this]
        rw [ih (cleanupDelete q acc) hdf' (by rw [hpstep]; exact hnull), hstep]

/-- C9: in the row objects the schema-enabled result path runs through
`cleanupDotNotationProperties`, every flattened key `parent.child` is
removed whenever the key `parent` is present with a non-null value, and
is kept (with its value) when `parent` is absent or null. -/
theorem C9_dot_notation_cleanup :
    ∀ (obj : Obj) (p c : String), hasDotChar p = false →
      (∀ v, lookupJ obj p = some v → v ≠ .vNull →
        lookupJ (cleanupDotNotationProps obj) (p ++ "." ++ c) = none) ∧
      ((lookupJ obj p = none ∨ lookupJ obj p = some .vNull) →
        lookupJ (cleanupDotNotationProps obj) (p ++ "." ++ c) =
          lookupJ obj (p ++ "." ++ c)) := by
  intro obj p c hp
  constructor
  · intro v hv hnn
    unfold cleanupDotNotationProps
    cases hk : lookupJ obj (p ++ "." ++ c) with
    | none => exact lookupJ_cleanupGo_none _ _ _ hk
    | some w =>
      have hmem : p ∈ cleanupParents obj := by
        have hkeymem := lookupJ_some_mem _ _ _ hk
        unfold cleanupParents
        apply mem_dedupFirst
        rw [List.mem_map]
        exact ⟨p ++ "." ++ c,
          List.mem_filter.mpr ⟨hkeymem, by simp [hasDot_concat]⟩,
          firstSeg_concat p c hp⟩
      exact cleanupGo_deletes _ p hp (strPrefix_self_dot p c) _ obj v hmem hv hnn
  · intro hnull
    exact cleanupGo_keeps p c hp _ obj (cleanupParents_dotfree obj) hnull

/-- C9, witness: the theorem applied to a concrete row object — the
flattened `address.city` is dropped because `address` is present and
non-null, while `pref.x` is kept because `pref` is null. -/
theorem C9_witness :
    lookupJ (cleanupDotNotationProps
        [("address", .vObj [("city", .vStr "NY")]), ("address.city", .vStr "NY"),
         ("pref", .vNull), ("pref.x", .vNum 1)])
      ("address" ++ "." ++ "city") = none ∧
    lookupJ (cleanupDotNotationProps
        [("address", .vObj [("city", .vStr "NY")]), ("address.city", .vStr "NY"),
         ("pref", .vNull), ("pref.x", .vNum 1)])
      ("pref" ++ "." ++ "x") =
      lookupJ
        [("address", .vObj [("city", .vStr "NY")]), ("address.city", .vStr "NY"),
         ("pref", .vNull), ("pref.x", .vNum 1)]
        ("pref" ++ "." ++ "x") :=
  ⟨(C9_dot_notation_cleanup _ "address" "city" rfl).1
      (.vObj [("city", .vStr "NY")]) rfl (by intro h; cases h),
   (C9_dot_notation_cleanup _ "pref" "x" rfl).2 (Or.inr rfl)⟩

/-! ### Claim C1 — injection safety

The strongest literal reading ("the sql text contains no occurrence of
the string value") fails for values that spell SQL punctuation; the
faithful invariant is that the sql text never *incorporates* a string
value: substituting every string value of the input leaves the sql text
unchanged, because values travel exclusively through `params`.  The
substitution is required to preserve emptiness, since a string used as
a `$exists` flag legitimately steers the SQL through its truthiness. -/

mutual

/-- Substitutes every string *value* (never a key) of a JS value. -/
def substV (σ : String → String) : JVal → JVal
  | .vStr s => .vStr (σ s)
  | .vArr xs => .vArr (substL σ xs)
  | .vObj fs => .vObj (substO σ fs)
  | v => v

/-- `substV` over array elements. -/
def substL (σ : String → String) : List JVal → List JVal
  | [] => []
  | x :: xs => substV σ x :: substL σ xs

/-- `substV` over object field values. -/
def substO (σ : String → String) : Obj → Obj
  | [] => []
  | (k, v) :: fs => (k, substV σ v) :: substO σ fs

end

/-- A substitution that maps the empty string (and only it) to the empty
string, so JS truthiness of strings is preserved. -/
def EmpPres (σ : String → String) : Prop := ∀ s, σ s = "" ↔ s = ""

/-- The shape information `handleArrayFieldQuery` inspects on a bound
parameter: whether it is an array, and of which length. -/
def arrLen : JVal → Option Nat
  | .vArr xs => some xs.length
  | _ => none

/-- Parameter lists of equal shape: pointwise equal `arrLen`. -/
def PRel (ps qs : List JVal) : Prop :=
  List.Forall₂ (fun a b => arrLen a = arrLen b) ps qs

/-- Result relation for the condition-building loops: identical errors,
or identical condition lists with shape-equal parameter lists. -/
def ERelL : Except String (List String × List JVal) →
    Except String (List String × List JVal) → Prop
  | .error e, .error e' => e = e'
  | .ok (c, ps), .ok (c', qs) => c = c' ∧ PRel ps qs
  | _, _ => False

/-- Result relation for `buildOperatorConditions`: identical errors, or
identical condition strings with shape-equal parameter lists. -/
def ERelS : Except String (String × List JVal) →
    Except String (String × List JVal) → Prop
  | .error e, .error e' => e = e'
  | .ok (c, ps), .ok (c', qs) => c = c' ∧ PRel ps qs
  | _, _ => False

theorem substL_length (σ : String → String) : ∀ xs, (substL σ xs).length = xs.length
  | [] => rfl
  | _ :: xs => by simp [substL, substL_length σ xs]

theorem substO_keys (σ : String → String) :
    ∀ fs : Obj, (substO σ fs).map Prod.fst = fs.map Prod.fst
  | [] => rfl
  | (_, _) :: fs => by simp [substO, substO_keys σ fs]

theorem arrLen_substV (σ : String → String) (v : JVal) :
    arrLen (substV σ v) = arrLen v := by
  cases v <;> simp [substV, arrLen, substL_length]

theorem arrLen_serializeValue (v : JVal) : arrLen (serializeValue v) = none := by
  cases v <;> rfl

theorem arrLen_jsSerializeForArray (v : JVal) :
    arrLen (jsSerializeForArray v) = none := by
  cases v <;> rfl

theorem PRel.length_eq {ps qs : List JVal} (h : PRel ps qs) :
    ps.length = qs.length := List.Forall₂.length_eq h

theorem PRel_nil : PRel [] [] := List.Forall₂.nil

theorem PRel_append {a b c d : List JVal} (h1 : PRel a b) (h2 : PRel c d) :
    PRel (a ++ c) (b ++ d) := by
  induction h1 with
  | nil => exact h2
  | cons h _ ih => exact List.Forall₂.cons h ih

theorem PRel_push_serialize {ps qs : List JVal} (h : PRel ps qs) (v w : JVal) :
    PRel (ps ++ [serializeValue v]) (qs ++ [serializeValue w]) :=
  PRel_append h (List.Forall₂.cons
    (by rw [arrLen_serializeValue, arrLen_serializeValue]) List.Forall₂.nil)

theorem PRel_push_raw (σ : String → String) {ps qs : List JVal} (h : PRel ps qs)
    (v : JVal) : PRel (ps ++ [v]) (qs ++ [substV σ v]) :=
  PRel_append h (List.Forall₂.cons (arrLen_substV σ v).symm List.Forall₂.nil)

theorem PRel_push_strs {ps qs : List JVal} (h : PRel ps qs) (a b : String) :
    PRel (ps ++ [.vStr a]) (qs ++ [.vStr b]) :=
  PRel_append h (List.Forall₂.cons rfl List.Forall₂.nil)

theorem PRel_map_serialize : ∀ (xs ys : List JVal), xs.length = ys.length →
    PRel (xs.map serializeValue) (ys.map serializeValue)
  | [], [], _ => List.Forall₂.nil
  | x :: xs, y :: ys, h => by
    refine List.Forall₂.cons ?_ (PRel_map_serialize xs ys (by simpa using h))
    rw [arrLen_serializeValue, arrLen_serializeValue]
  | [], _ :: _, h => by cases h
  | _ :: _, [], h => by cases h

theorem PRel_map_strs : ∀ (xs ys : List JVal) (f g : JVal → String),
    xs.length = ys.length →
    PRel (xs.map fun x => JVal.vStr (f x)) (ys.map fun y => JVal.vStr (g y))
  | [], [], _, _, _ => List.Forall₂.nil
  | x :: xs, y :: ys, f, g, h => by
    exact List.Forall₂.cons rfl (PRel_map_strs xs ys f g (by simpa using h))
  | [], _ :: _, _, _, h => by cases h
  | _ :: _, [], _, _, h => by cases h

theorem PRel_raw_list (σ : String → String) : ∀ xs : List JVal,
    PRel xs (substL σ xs)
  | [] => List.Forall₂.nil
  | x :: xs => List.Forall₂.cons (arrLen_substV σ x).symm (PRel_raw_list σ xs)

theorem PRel_getD {ps qs : List JVal} (h : PRel ps qs) (i : Nat) :
    arrLen (ps.getD i .vUndef) = arrLen (qs.getD i .vUndef) := by
  induction h generalizing i with
  | nil => rfl
  | cons hab _ ih =>
    cases i with
    | zero => simpa using hab
    | succ j => simpa using ih j

theorem map_const_of_length {α β : Type} (c : β) :
    ∀ (xs ys : List α), xs.length = ys.length →
      (xs.map fun _ => c) = ys.map fun _ => c
  | [], [], _ => rfl
  | _ :: xs, _ :: ys, h => by
    simp only [List.map_cons, List.cons.injEq, true_and]
    exact map_const_of_length c xs ys (by simpa using h)
  | [], _ :: _, h => by cases h
  | _ :: _, [], h => by cases h

theorem jsTruthy_substV (σ : String → String) (hσ : EmpPres σ) (v : JVal) :
    jsTruthy (substV σ v) = jsTruthy v := by
  cases v <;> simp [substV, jsTruthy]
  case vStr s => simp [hσ s]

theorem jsEntries_enum_subst (σ : String → String) : ∀ (n : Nat) (xs : List JVal),
    ((List.enumFrom n (substL σ xs)).map fun p => (natKey p.1, p.2)) =
      substO σ ((List.enumFrom n xs).map fun p => (natKey p.1, p.2))
  | _, [] => rfl
  | n, x :: xs => by
    simp only [substL, List.enumFrom, List.map_cons, substO]
    exact congrArg _ (jsEntries_enum_subst σ (n + 1) xs)

theorem jsEntries_vArr_subst (σ : String → String) (xs : List JVal) :
    jsEntries (.vArr (substL σ xs)) = substO σ (jsEntries (.vArr xs)) := by
  simp only [jsEntries, List.enum]
  exact jsEntries_enum_subst σ 0 xs

theorem natChars_digits : ∀ n : Nat, ∀ c ∈ natChars n, c.isDigit = true := by
  intro n
  induction n using Nat.strong_induction_on with
  | _ n ih =>
    intro c hc
    rw [natChars] at hc
    by_cases h : n < 10
    · simp only [h, dif_pos, List.mem_singleton] at hc
      subst hc
      interval_cases n <;> decide
    · simp only [h, dif_neg, not_false_iff, List.mem_append,
        List.mem_singleton] at hc
      rcases hc with h1 | h1
      · exact ih (n / 10) (Nat.div_lt_self (by omega) (by omega)) c h1
      · subst h1
        have h2 : n % 10 < 10 := Nat.mod_lt _ (by omega)
        generalize n % 10 = m at h2 ⊢
        interval_cases m <;> decide

theorem natChars_ne_nil (n : Nat) : natChars n ≠ [] := by
  rw [natChars]
  split
  · simp
  · simp

theorem natKey_no_dollar (n : Nat) : strStarts (natKey n) "$" = false := by
  unfold strStarts natKey
  cases hd : natChars n with
  | nil => exact absurd hd (natChars_ne_nil n)
  | cons c cs =>
    have hc : c.isDigit = true := natChars_digits n c (hd ▸ List.mem_cons_self _ _)
    show List.isPrefixOf ['$'] (c :: cs) = false
    by_cases h : '$' = c
    · subst h
      exact absurd hc (by decide)
    · simp [List.isPrefixOf, h]

theorem ne_of_no_dollar {op c : String} (h1 : strStarts op "$" = false)
    (h2 : strStarts c "$" = true) : op ≠ c := by
  intro he
  subst he
  rw [h1] at h2
  cases h2

theorem baseOpConds_skip_step (col op : String) (v : JVal)
    (rest : List (String × JVal)) (conds : List String) (params : List JVal)
    (hop : strStarts op "$" = false) :
    baseOpConds col ((op, v) :: rest) conds params =
      baseOpConds col rest conds params := by
  have h := fun (c : String) (hc : strStarts c "$" = true) => ne_of_no_dollar hop hc
  have h1 := h "$eq" rfl
  have h2 := h "$ne" rfl
  have h3 := h "$gt" rfl
  have h4 := h "$gte" rfl
  have h5 := h "$lt" rfl
  have h6 := h "$lte" rfl
  have h7 := h "$in" rfl
  have h8 := h "$nin" rfl
  have h9 := h "$exists" rfl
  have h10 := h "$regex" rfl
  have h11 := h "$all" rfl
  have h12 := h "$elemMatch" rfl
  have h13 := h "$size" rfl
  have h14 := h "$type" rfl
  have h15 := h "$mod" rfl
  simp [baseOpConds, h1, h2, h3, h4, h5, h6, h7, h8, h9, h10, h11, h12, h13,
    h14, h15]

theorem baseBuildOperatorConditions_skip (col op : String) (v : JVal)
    (params : List JVal) (hop : strStarts op "$" = false) :
    baseBuildOperatorConditions col [(op, v)] params = .ok ("", params) := by
  unfold baseBuildOperatorConditions
  rw [baseOpConds_skip_step col op v [] [] params hop]
  rfl

theorem sqliteOpConds_skip (col : String) :
    ∀ (entries : List (String × JVal)) (conds : List String) (params : List JVal),
      (∀ e ∈ entries, strStarts e.1 "$" = false) →
      sqliteOpConds col entries conds params = .ok (conds, params) := by
  intro entries
  induction entries with
  | nil => intro conds params _; rfl
  | cons e rest ih =>
    intro conds params hall
    obtain ⟨op, v⟩ := e
    have hop : strStarts op "$" = false := hall _ (List.mem_cons_self _ _)
    have h := fun (c : String) (hc : strStarts c "$" = true) => ne_of_no_dollar hop hc
    have h1 := h "$regex" rfl
    have h2 := h "$all" rfl
    have h3 := h "$elemMatch" rfl
    have h4 := h "$size" rfl
    have hb := baseBuildOperatorConditions_skip col op v params hop
    simp only [sqliteOpConds, h1, h2, h3, h4, reduceIte, decide_eq_false,
      Bool.or_self, Bool.false_eq_true, if_false, hb]
    exact ih conds params (fun e he => hall _ (List.mem_cons_of_mem _ he))

theorem jsEntries_vStr_keys (s : String) :
    ∀ e ∈ jsEntries (.vStr s), strStarts e.1 "$" = false := by
  intro e he
  simp only [jsEntries, List.mem_map] at he
  obtain ⟨p, _, he⟩ := he
  rw [← he]
  exact natKey_no_dollar p.1

theorem sqliteBuildOperatorConditions_vStr (col s : String) (params : List JVal) :
    sqliteBuildOperatorConditions col (jsEntries (.vStr s)) params =
      .ok ("", params) := by
  unfold sqliteBuildOperatorConditions
  rw [sqliteOpConds_skip col _ [] params (jsEntries_vStr_keys s)]
  rfl

theorem PRel_push_pair {ps qs : List JVal} (h : PRel ps qs) {v w : JVal}
    (hvw : arrLen v = arrLen w) : PRel (ps ++ [v]) (qs ++ [w]) :=
  PRel_append h (List.Forall₂.cons hvw List.Forall₂.nil)

theorem baseOpConds_subst (σ : String → String) (hσ : EmpPres σ) (col : String) :
    ∀ (ops : List (String × JVal)) (conds : List String) (ps qs : List JVal),
      PRel ps qs →
      ERelL (baseOpConds col ops conds ps)
        (baseOpConds col (substO σ ops) conds qs) := by
  intro ops
  induction ops with
  | nil => intro conds ps qs h; exact ⟨rfl, h⟩
  | cons e rest ih =>
    intro conds ps qs h
    obtain ⟨op, v⟩ := e
    rw [substO]
    by_cases h1 : op = "$eq"
    · subst h1
      cases v <;> simp only [baseOpConds, substV, if_pos rfl] <;>
        first
          | exact ih _ _ _ h
          | exact ih _ _ _ (PRel_push_serialize h _ _)
    by_cases h2 : op = "$ne"
    · subst h2
      cases v <;> simp only [baseOpConds, substV, h1, if_neg, if_pos rfl,
        reduceIte] <;>
        first
          | exact ih _ _ _ h
          | exact ih _ _ _ (PRel_push_serialize h _ _)
    by_cases h3 : op = "$gt"
    · subst h3
      simp only [baseOpConds, h1, h2, reduceIte, if_pos rfl]
      exact ih _ _ _ (PRel_push_serialize h _ _)
    by_cases h4 : op = "$gte"
    · subst h4
      simp only [baseOpConds, h1, h2, h3, reduceIte, if_pos rfl]
      exact ih _ _ _ (PRel_push_serialize h _ _)
    by_cases h5 : op = "$lt"
    · subst h5
      simp only [baseOpConds, h1, h2, h3, h4, reduceIte, if_pos rfl]
      exact ih _ _ _ (PRel_push_serialize h _ _)
    by_cases h6 : op = "$lte"
    · subst h6
      simp only [baseOpConds, h1, h2, h3, h4, h5, reduceIte, if_pos rfl]
      exact ih _ _ _ (PRel_push_serialize h _ _)
    by_cases h7 : op = "$in"
    · subst h7
      cases v with
      | vArr xs =>
        cases xs with
        | nil =>
          simp only [baseOpConds, substV, substL, h1, h2, h3, h4, h5, h6,
            reduceIte, if_pos rfl]
          exact ih _ _ _ h
        | cons x xt =>
          simp only [baseOpConds, substV, substL, h1, h2, h3, h4, h5, h6,
            reduceIte, if_pos rfl]
          rw [map_const_of_length "?" (substV σ x :: substL σ xt) (x :: xt)
            (by simp [substL_length])]
          exact ih _ _ _ (PRel_append h
            (PRel_map_serialize (x :: xt) (substV σ x :: substL σ xt)
              (by simp [substL_length])))
      | _ =>
        simp only [baseOpConds, substV, h1, h2, h3, h4, h5, h6, reduceIte,
          if_pos rfl]
        all_goals exact ih _ _ _ h
    by_cases h8 : op = "$nin"
    · subst h8
      cases v with
      | vArr xs =>
        cases xs with
        | nil =>
          simp only [baseOpConds, substV, substL, h1, h2, h3, h4, h5, h6, h7,
            reduceIte, if_pos rfl]
          exact ih _ _ _ h
        | cons x xt =>
          simp only [baseOpConds, substV, substL, h1, h2, h3, h4, h5, h6, h7,
            reduceIte, if_pos rfl]
          rw [map_const_of_length "?" (substV σ x :: substL σ xt) (x :: xt)
            (by simp [substL_length])]
          exact ih _ _ _ (PRel_append h
            (PRel_map_serialize (x :: xt) (substV σ x :: substL σ xt)
              (by simp [substL_length])))
      | _ =>
        simp only [baseOpConds, substV, h1, h2, h3, h4, h5, h6, h7, reduceIte,
          if_pos rfl]
        all_goals exact ih _ _ _ h
    by_cases h9 : op = "$exists"
    · subst h9
      simp only [baseOpConds, h1, h2, h3, h4, h5, h6, h7, h8, reduceIte,
        if_pos rfl, jsTruthy_substV σ hσ v]
      exact ih _ _ _ h
    by_cases h10 : op = "$regex"
    · subst h10
      simp only [baseOpConds, h1, h2, h3, h4, h5, h6, h7, h8, h9, reduceIte,
        if_pos rfl]
      exact ih _ _ _ (PRel_push_serialize h _ _)
    by_cases h11 : (op = "$all" || op = "$elemMatch" || op = "$size" ||
        op = "$type" || op = "$mod") = true
    · simp only [baseOpConds, h1, h2, h3, h4, h5, h6, h7, h8, h9, h10,
        reduceIte, if_pos h11]
      rfl
    · simp only [baseOpConds, h1, h2, h3, h4, h5, h6, h7, h8, h9, h10,
        reduceIte, if_neg h11]
      exact ih _ _ _ h

theorem sqliteElemMatchOps_subst (σ : String → String) (subOp : String) :
    ∀ (sf : List (String × JVal)) (conds : List String) (ps qs : List JVal),
      PRel ps qs →
      ERelL (sqliteElemMatchOps subOp sf conds ps)
        (sqliteElemMatchOps subOp (substO σ sf) conds qs) := by
  intro sf
  induction sf with
  | nil => intro conds ps qs h; exact ⟨rfl, h⟩
  | cons e rest ih =>
    intro conds ps qs h
    obtain ⟨oper, operValue⟩ := e
    rw [substO]
    by_cases g1 : oper = "$eq"
    · subst g1
      simp only [sqliteElemMatchOps, if_pos rfl]
      exact ih _ _ _ (PRel_push_raw σ h operValue)
    by_cases g2 : oper = "$ne"
    · subst g2
      simp only [sqliteElemMatchOps, g1, reduceIte, if_pos rfl]
      exact ih _ _ _ (PRel_push_raw σ h operValue)
    by_cases g3 : oper = "$gt"
    · subst g3
      simp only [sqliteElemMatchOps, g1, g2, reduceIte, if_pos rfl]
      exact ih _ _ _ (PRel_push_raw σ h operValue)
    by_cases g4 : oper = "$gte"
    · subst g4
      simp only [sqliteElemMatchOps, g1, g2, g3, reduceIte, if_pos rfl]
      exact ih _ _ _ (PRel_push_raw σ h operValue)
    by_cases g5 : oper = "$lt"
    · subst g5
      simp only [sqliteElemMatchOps, g1, g2, g3, g4, reduceIte, if_pos rfl]
      exact ih _ _ _ (PRel_push_raw σ h operValue)
    by_cases g6 : oper = "$lte"
    · subst g6
      simp only [sqliteElemMatchOps, g1, g2, g3, g4, g5, reduceIte, if_pos rfl]
      exact ih _ _ _ (PRel_push_raw σ h operValue)
    · simp only [sqliteElemMatchOps, g1, g2, g3, g4, g5, g6, reduceIte]
      rfl

theorem sqliteElemMatchConds_subst (σ : String → String) :
    ∀ (entries : List (String × JVal)) (conds : List String) (ps qs : List JVal),
      PRel ps qs →
      ERelL (sqliteElemMatchConds entries conds ps)
        (sqliteElemMatchConds (substO σ entries) conds qs) := by
  intro entries
  induction entries with
  | nil => intro conds ps qs h; exact ⟨rfl, h⟩
  | cons e rest ih =>
    intro conds ps qs h
    obtain ⟨subOp, subValue⟩ := e
    rw [substO]
    cases subValue <;> simp only [sqliteElemMatchConds, substV] <;>
      try exact ih _ _ _ (PRel_push_raw σ h _)
    case vObj subFields =>
      have h2 := sqliteElemMatchOps_subst σ subOp subFields conds ps qs h
      cases ha : sqliteElemMatchOps subOp subFields conds ps with
      | error e1 =>
        rw [ha] at h2
        cases hb : sqliteElemMatchOps subOp (substO σ subFields) conds qs with
        | error e2 => rw [hb] at h2; exact h2
        | ok r => rw [hb] at h2; obtain ⟨c, p⟩ := r; exact h2.elim
      | ok r =>
        obtain ⟨conds', ps'⟩ := r
        rw [ha] at h2
        cases hb : sqliteElemMatchOps subOp (substO σ subFields) conds qs with
        | error e2 => rw [hb] at h2; exact h2.elim
        | ok r' =>
          obtain ⟨conds'', qs'⟩ := r'
          rw [hb] at h2
          obtain ⟨hc, hp⟩ := h2
          subst hc
          exact ih _ _ _ hp


theorem baseBuildOperatorConditions_subst (σ : String → String)
    (hσ : EmpPres σ) (col : String) (ops : List (String × JVal))
    (ps qs : List JVal) (h : PRel ps qs) :
    ERelS (baseBuildOperatorConditions col ops ps)
      (baseBuildOperatorConditions col (substO σ ops) qs) := by
  unfold baseBuildOperatorConditions
  have h2 := baseOpConds_subst σ hσ col ops [] ps qs h
  cases ha : baseOpConds col ops [] ps with
  | error e =>
    rw [ha] at h2
    cases hb : baseOpConds col (substO σ ops) [] qs with
    | error e' => rw [hb] at h2; exact h2
    | ok r => rw [hb] at h2; obtain ⟨c, prms⟩ := r; cases h2
  | ok r =>
    obtain ⟨conds, ps'⟩ := r
    rw [ha] at h2
    cases hb : baseOpConds col (substO σ ops) [] qs with
    | error e' => rw [hb] at h2; cases h2
    | ok r' =>
      obtain ⟨conds', qs'⟩ := r'
      rw [hb] at h2
      obtain ⟨hc, hp⟩ := h2
      subst hc
      exact ⟨rfl, hp⟩

theorem sqliteOpConds_subst (σ : String → String) (hσ : EmpPres σ) (col : String) :
    ∀ (ops : List (String × JVal)) (conds : List String) (ps qs : List JVal),
      PRel ps qs →
      ERelL (sqliteOpConds col ops conds ps)
        (sqliteOpConds col (substO σ ops) conds qs) := by
  intro ops
  induction ops with
  | nil => intro conds ps qs h; exact ⟨rfl, h⟩
  | cons e rest ih =>
    intro conds ps qs h
    obtain ⟨op, v⟩ := e
    rw [substO]
    by_cases g1 : op = "$regex"
    · subst g1
      show ERelL
        (sqliteOpConds col rest (conds ++ [col ++ " LIKE ?"])
          (ps ++ [JVal.vStr (sqliteLikePattern (jsToString v))]))
        (sqliteOpConds col (substO σ rest) (conds ++ [col ++ " LIKE ?"])
          (qs ++ [JVal.vStr (sqliteLikePattern (jsToString (substV σ v)))]))
      exact ih _ _ _ (PRel_push_strs h _ _)
    by_cases g2 : op = "$all"
    · subst g2
      cases v with
      | vArr xs =>
        cases xs with
        | nil =>
          show ERelL (sqliteOpConds col rest conds (ps ++ []))
            (sqliteOpConds col (substO σ rest) conds (qs ++ []))
          rw [List.append_nil, List.append_nil]
          exact ih _ _ _ h
        | cons x xt =>
          show ERelL
            (sqliteOpConds col rest
              (conds ++ ["(" ++ String.intercalate " AND "
                ((x :: xt).map fun _ =>
                  "json_array_length(json_extract(" ++ col ++ ", '$[?]')) > 0") ++ ")"])
              (ps ++ (x :: xt).map fun item => JVal.vStr (jsonStr item)))
            (sqliteOpConds col (substO σ rest)
              (conds ++ ["(" ++ String.intercalate " AND "
                ((substV σ x :: substL σ xt).map fun _ =>
                  "json_array_length(json_extract(" ++ col ++ ", '$[?]')) > 0") ++ ")"])
              (qs ++ (substV σ x :: substL σ xt).map fun item => JVal.vStr (jsonStr item)))
          rw [map_const_of_length
            ("json_array_length(json_extract(" ++ col ++ ", '$[?]')) > 0")
            (substV σ x :: substL σ xt) (x :: xt) (by simp [substL_length])]
          exact ih _ _ _ (PRel_append h
            (PRel_map_strs (x :: xt) (substV σ x :: substL σ xt) jsonStr jsonStr
              (by simp [substL_length])))
      | vUndef => exact rfl
      | vNull => exact rfl
      | vBool b => exact rfl
      | vNum n => exact rfl
      | vStr s => exact rfl
      | vObj fs => exact rfl
    by_cases g3 : op = "$size"
    · subst g3
      cases v with
      | vNum n =>
        show ERelL
          (sqliteOpConds col rest
            (conds ++ ["json_array_length(" ++ col ++ ") = ?"])
            (ps ++ [JVal.vNum n]))
          (sqliteOpConds col (substO σ rest)
            (conds ++ ["json_array_length(" ++ col ++ ") = ?"])
            (qs ++ [JVal.vNum n]))
        exact ih _ _ _ (PRel_push_pair h rfl)
      | vUndef => exact rfl
      | vNull => exact rfl
      | vBool b => exact rfl
      | vStr s => exact rfl
      | vArr xs => exact rfl
      | vObj fs => exact rfl
    by_cases g4 : op = "$elemMatch"
    · subst g4
      have key : ∀ (entries : List (String × JVal)) (ups uqs : List JVal),
          PRel ups uqs →
          ERelL (match sqliteElemMatchConds entries [] ups with
                 | .error e1 => .error e1
                 | .ok (emConds, params') =>
                   if emConds.isEmpty then sqliteOpConds col rest conds params'
                   else sqliteOpConds col rest
                     (conds ++ [sqliteElemMatchWrap col emConds]) params')
                (match sqliteElemMatchConds (substO σ entries) [] uqs with
                 | .error e1 => .error e1
                 | .ok (emConds, params') =>
                   if emConds.isEmpty then
                     sqliteOpConds col (substO σ rest) conds params'
                   else sqliteOpConds col (substO σ rest)
                     (conds ++ [sqliteElemMatchWrap col emConds]) params') := by
        intro entries ups uqs hpq
        have h2 := sqliteElemMatchConds_subst σ entries [] ups uqs hpq
        cases ha : sqliteElemMatchConds entries [] ups with
        | error e1 =>
          rw [ha] at h2
          cases hb : sqliteElemMatchConds (substO σ entries) [] uqs with
          | error e2 => rw [hb] at h2; exact h2
          | ok r => rw [hb] at h2; obtain ⟨c, p⟩ := r; cases h2
        | ok r =>
          obtain ⟨emConds, ps'⟩ := r
          rw [ha] at h2
          cases hb : sqliteElemMatchConds (substO σ entries) [] uqs with
          | error e2 => rw [hb] at h2; cases h2
          | ok r' =>
            obtain ⟨emConds', qs'⟩ := r'
            rw [hb] at h2
            obtain ⟨hc, hp⟩ := h2
            subst hc
            show ERelL
              (if emConds.isEmpty then sqliteOpConds col rest conds ps'
               else sqliteOpConds col rest
                 (conds ++ [sqliteElemMatchWrap col emConds]) ps')
              (if emConds.isEmpty then
                 sqliteOpConds col (substO σ rest) conds qs'
               else sqliteOpConds col (substO σ rest)
                 (conds ++ [sqliteElemMatchWrap col emConds]) qs')
            cases he : emConds.isEmpty <;>
              simp only [Bool.false_eq_true, if_false, reduceIte] <;>
              exact ih _ _ _ hp
      cases v with
      | vObj fs => exact key fs ps qs h
      | vArr xs =>
        have h3 := key (jsEntries (.vArr xs)) ps qs h
        rw [← jsEntries_vArr_subst σ xs] at h3
        exact h3
      | vUndef => exact rfl
      | vNull => exact rfl
      | vBool b => exact rfl
      | vNum n => exact rfl
      | vStr s => exact rfl
    have h2 := baseBuildOperatorConditions_subst σ hσ col [(op, v)] ps qs h
    rw [show substO σ [(op, v)] = [(op, substV σ v)] from rfl] at h2
    cases ha : baseBuildOperatorConditions col [(op, v)] ps with
    | error e1 =>
      rw [ha] at h2
      cases hb : baseBuildOperatorConditions col [(op, substV σ v)] qs with
      | error e2 =>
        rw [hb] at h2
        have he : e1 = e2 := h2
        subst he
        simp only [sqliteOpConds, g1, g2, g3, g4, reduceIte, decide_eq_false,
          Bool.or_self, Bool.false_eq_true, if_false, ha, hb]
        cases hs : strIncl "not implemented in base adapter" e1 <;>
          simp only [Bool.false_eq_true, if_false, reduceIte] <;> exact rfl
      | ok r => rw [hb] at h2; obtain ⟨c, p⟩ := r; cases h2
    | ok r =>
      obtain ⟨c, ps'⟩ := r
      rw [ha] at h2
      cases hb : baseBuildOperatorConditions col [(op, substV σ v)] qs with
      | error e2 => rw [hb] at h2; cases h2
      | ok r' =>
        obtain ⟨c', qs'⟩ := r'
        rw [hb] at h2
        obtain ⟨hc, hp⟩ := h2
        subst hc
        simp only [sqliteOpConds, g1, g2, g3, g4, reduceIte, decide_eq_false,
          Bool.or_self, Bool.false_eq_true, if_false, ha, hb]
        by_cases hc0 : c = ""
        · rw [if_pos hc0, if_pos hc0]
          exact ih _ _ _ hp
        · rw [if_neg hc0, if_neg hc0]
          exact ih _ _ _ hp

theorem sqliteBuildOperatorConditions_subst (σ : String → String)
    (hσ : EmpPres σ) (col : String) (ops : List (String × JVal))
    (ps qs : List JVal) (h : PRel ps qs) :
    ERelS (sqliteBuildOperatorConditions col ops ps)
      (sqliteBuildOperatorConditions col (substO σ ops) qs) := by
  unfold sqliteBuildOperatorConditions
  have h2 := sqliteOpConds_subst σ hσ col ops [] ps qs h
  cases ha : sqliteOpConds col ops [] ps with
  | error e1 =>
    rw [ha] at h2
    cases hb : sqliteOpConds col (substO σ ops) [] qs with
    | error e2 => rw [hb] at h2; exact h2
    | ok r => rw [hb] at h2; obtain ⟨c, p⟩ := r; cases h2
  | ok r =>
    obtain ⟨conds, ps'⟩ := r
    rw [ha] at h2
    cases hb : sqliteOpConds col (substO σ ops) [] qs with
    | error e2 => rw [hb] at h2; cases h2
    | ok r' =>
      obtain ⟨conds', qs'⟩ := r'
      rw [hb] at h2
      obtain ⟨hc, hp⟩ := h2
      subst hc
      exact ⟨rfl, hp⟩

mutual

/-- `preprocessFilter` commutes with value substitution: the rewrite only
inspects keys and value constructors, both preserved by `substV`. -/
theorem preprocessFilter_subst (σ : String → String) :
    ∀ f : Obj, preprocessFilter (substO σ f) = substO σ (preprocessFilter f)
  | [] => rfl
  | (k, v) :: rest => by
    simp only [substO, preprocessFilter, preprocessVal_subst σ k v,
      preprocessFilter_subst σ rest]

/-- `preprocessVal` commutes with value substitution. -/
theorem preprocessVal_subst (σ : String → String) (k : String) :
    ∀ v : JVal, preprocessVal k (substV σ v) = substV σ (preprocessVal k v)
  | .vStr s => by
    simp only [substV, preprocessVal]
    cases hf : sqliteIsArrayField k <;>
      simp [hf, substV, substO, substL]
  | .vObj gs => by
    simp only [substV, preprocessVal, preprocessFilter_subst σ gs]
  | .vArr xs => by simp only [substV, preprocessVal]
  | .vUndef => rfl
  | .vNull => rfl
  | .vBool b => rfl
  | .vNum n => rfl

end

/-- One-step unfolding of `hnList` on a nonempty entry list (the body of
the definition, restated so the branch conditions can be rewritten). -/
theorem hnList_cons (k : String) (v : JVal) (rest : Obj) :
    hnList ((k, v) :: rest) =
      if strStarts k "$" then
        if k = "$and" || k = "$or" || k = "$nor" then
          match v with
          | .vArr xs =>
            match hnArr xs with
            | .error e => .error e
            | .ok ys =>
              match hnList rest with
              | .error e => .error e
              | .ok rest' => .ok ((k, JVal.vArr ys) :: rest')
          | _ => .error "TypeError: value.map is not a function"
        else if k = "$not" then
          match hnVal v with
          | .error e => .error e
          | .ok v' =>
            match hnList rest with
            | .error e => .error e
            | .ok rest' => .ok ((k, v') :: rest')
        else
          match hnList rest with
          | .error e => .error e
          | .ok rest' => .ok ((k, v) :: rest')
      else
        match hnList rest with
        | .error e => .error e
        | .ok rest' => .ok ((k, v) :: rest') := by
  rw [hnList.eq_def]

/-- `handleNestedPathInFilter` commutes with value substitution, at every
level of the structure at once (strong induction on the size): the branch
taken depends only on keys and value constructors, both preserved by the
substitution. -/
theorem hn_subst (σ : String → String) :
    ∀ n : Nat,
      (∀ f : Obj, sizeOf f ≤ n →
        hnList (substO σ f) = (hnList f).map (substO σ)) ∧
      (∀ xs : List JVal, sizeOf xs ≤ n →
        hnArr (substL σ xs) = (hnArr xs).map (substL σ)) ∧
      (∀ v : JVal, sizeOf v ≤ n →
        hnVal (substV σ v) = (hnVal v).map (substV σ)) := by
  intro n
  induction n using Nat.strong_induction_on with
  | _ n ih =>
    refine ⟨?_, ?_, ?_⟩
    · intro f hf
      cases f with
      | nil => rfl
      | cons e rest =>
        obtain ⟨k, v⟩ := e
        simp only [List.cons.sizeOf_spec, Prod.mk.sizeOf_spec] at hf
        have hrest : hnList (substO σ rest) = (hnList rest).map (substO σ) :=
          (ih (sizeOf rest) (by omega)).1 rest (le_refl _)
        have hval : hnVal (substV σ v) = (hnVal v).map (substV σ) :=
          (ih (sizeOf v) (by omega)).2.2 v (le_refl _)
        rw [substO, hnList_cons k (substV σ v) (substO σ rest),
          hnList_cons k v rest]
        cases hd : strStarts k "$"
        · rw [if_neg (show ¬(false = true) by decide),
            if_neg (show ¬(false = true) by decide)]
          rw [hrest]
          cases hr : hnList rest <;> simp [Except.map, substO]
        · rw [if_pos rfl, if_pos rfl]
          cases hlog : (k = "$and" || k = "$or" || k = "$nor")
          · rw [if_neg (show ¬(false = true) by decide),
              if_neg (show ¬(false = true) by decide)]
            by_cases hnot : k = "$not"
            · rw [if_pos hnot, if_pos hnot]
              rw [hval]
              cases hv : hnVal v with
              | error e1 => simp [Except.map]
              | ok v' =>
                simp only [Except.map]
                rw [hrest]
                cases hr : hnList rest <;> simp [Except.map, substO]
            · rw [if_neg hnot, if_neg hnot]
              rw [hrest]
              cases hr : hnList rest <;> simp [Except.map, substO]
          · rw [if_pos rfl, if_pos rfl]
            cases v with
            | vArr xs =>
              simp only [JVal.vArr.sizeOf_spec] at hf
              have harr : hnArr (substL σ xs) = (hnArr xs).map (substL σ) :=
                (ih (sizeOf xs) (by omega)).2.1 xs (le_refl _)
              simp only [substV]
              rw [harr]
              cases hx : hnArr xs with
              | error e1 => simp [Except.map]
              | ok ys =>
                simp only [Except.map]
                rw [hrest]
                cases hr : hnList rest <;> simp [Except.map, substO, substV]
            | vUndef => simp [substV, Except.map]
            | vNull => simp [substV, Except.map]
            | vBool b => simp [substV, Except.map]
            | vNum m => simp [substV, Except.map]
            | vStr s => simp [substV, Except.map]
            | vObj fs => simp [substV, Except.map]
    · intro xs hxs
      cases xs with
      | nil => rfl
      | cons x xt =>
        simp only [List.cons.sizeOf_spec] at hxs
        have hx : hnVal (substV σ x) = (hnVal x).map (substV σ) :=
          (ih (sizeOf x) (by omega)).2.2 x (le_refl _)
        have hxt : hnArr (substL σ xt) = (hnArr xt).map (substL σ) :=
          (ih (sizeOf xt) (by omega)).2.1 xt (le_refl _)
        simp only [substL, hnArr]
        rw [hx]
        cases hv : hnVal x with
        | error e1 => simp [Except.map]
        | ok y =>
          simp only [Except.map]
          rw [hxt]
          cases hr : hnArr xt <;> simp [Except.map, substL]
    · intro v hv
      cases v with
      | vObj gs =>
        simp only [JVal.vObj.sizeOf_spec] at hv
        have hgs : hnList (substO σ gs) = (hnList gs).map (substO σ) :=
          (ih (sizeOf gs) (by omega)).1 gs (le_refl _)
        simp only [substV, hnVal]
        rw [hgs]
        cases hg : hnList gs <;> simp [Except.map, substV]
      | vArr xs =>
        simp only [substV, hnVal, Except.map, jsEntries_vArr_subst σ xs]
      | vUndef => rfl
      | vNull => rfl
      | vBool b => rfl
      | vNum m => rfl
      | vStr s => rfl

theorem hnList_subst (σ : String → String) (f : Obj) :
    hnList (substO σ f) = (hnList f).map (substO σ) :=
  (hn_subst σ (sizeOf f)).1 f (le_refl _)

theorem substO_any_dollar (σ : String → String) :
    ∀ gs : Obj, (substO σ gs).any (fun e => strStarts e.1 "$") =
      gs.any (fun e => strStarts e.1 "$")
  | [] => rfl
  | (k, v) :: rest => by
    simp only [substO, List.any_cons, substO_any_dollar σ rest]

theorem bwcffNested_subst (σ : String → String) (escK : String) :
    ∀ (gs : List (String × JVal)) (nconds : List String) (ps qs : List JVal),
      PRel ps qs →
      (bwcffNested escK (substO σ gs) nconds qs).1 =
          (bwcffNested escK gs nconds ps).1 ∧
        PRel (bwcffNested escK gs nconds ps).2
          (bwcffNested escK (substO σ gs) nconds qs).2
  | [], nconds, ps, qs, h => ⟨rfl, h⟩
  | (nk, nv) :: rest, nconds, ps, qs, h => by
    simp only [substO, bwcffNested]
    exact bwcffNested_subst σ escK rest _ _ _ (PRel_push_raw σ h nv)

theorem bwcffFieldOps_subst (σ : String → String) (hσ : EmpPres σ)
    (columnName : String) :
    ∀ (gs : List (String × JVal)) (conds : List String) (ps qs : List JVal),
      PRel ps qs →
      ERelL (bwcffFieldOps columnName gs conds ps)
        (bwcffFieldOps columnName (substO σ gs) conds qs) := by
  intro gs
  induction gs with
  | nil => intro conds ps qs h; exact ⟨rfl, h⟩
  | cons e rest ih =>
    intro conds ps qs h
    obtain ⟨opKey, opValue⟩ := e
    rw [substO]
    cases hd : strStarts opKey "$"
    · simp only [bwcffFieldOps, hd, Bool.false_eq_true, if_false, reduceIte]
      exact ih _ _ _ h
    · have h2 := sqliteBuildOperatorConditions_subst σ hσ columnName
        [(opKey, opValue)] ps qs h
      rw [show substO σ [(opKey, opValue)] = [(opKey, substV σ opValue)]
        from rfl] at h2
      cases ha : sqliteBuildOperatorConditions columnName [(opKey, opValue)] ps with
      | error e1 =>
        rw [ha] at h2
        cases hb : sqliteBuildOperatorConditions columnName
            [(opKey, substV σ opValue)] qs with
        | error e2 =>
          rw [hb] at h2
          simp only [bwcffFieldOps, hd, reduceIte, ha, hb]
          exact h2
        | ok r => rw [hb] at h2; obtain ⟨c, p⟩ := r; cases h2
      | ok r =>
        obtain ⟨c, ps'⟩ := r
        rw [ha] at h2
        cases hb : sqliteBuildOperatorConditions columnName
            [(opKey, substV σ opValue)] qs with
        | error e2 => rw [hb] at h2; cases h2
        | ok r' =>
          obtain ⟨c', qs'⟩ := r'
          rw [hb] at h2
          obtain ⟨hc, hp⟩ := h2
          subst hc
          simp only [bwcffFieldOps, hd, reduceIte, ha, hb]
          by_cases hc0 : c = ""
          · rw [if_pos hc0, if_pos hc0]
            exact ih _ _ _ hp
          · rw [if_neg hc0, if_neg hc0]
            exact ih _ _ _ hp

theorem bwcff_subst (σ : String → String) (hσ : EmpPres σ) :
    ∀ (f : Obj) (conds : List String) (ps qs : List JVal),
      PRel ps qs →
      ERelL (bwcff f conds ps) (bwcff (substO σ f) conds qs) := by
  intro f
  induction f with
  | nil => intro conds ps qs h; exact ⟨rfl, h⟩
  | cons e rest ih =>
    intro conds ps qs h
    obtain ⟨k, v⟩ := e
    rw [substO]
    cases hd : strStarts k "$"
    · -- plain field name
      have scalarStep : ∀ (v1 v2 : JVal), arrLen v1 = arrLen v2 →
          ERelL
            (if hasDotChar k = true then
              (if sqliteIsArrayField ((splitDots k).headD k) = true then
                bwcff rest
                  (conds ++ [sqlitePathExistsCond ((splitDots k).headD k)
                    (String.intercalate "." (splitDots k).tail)])
                  (ps ++ [v1])
              else
                bwcff rest
                  (conds ++ ["json_extract(" ++
                    sqEscape ((splitDots k).headD k) ++ ", '$." ++
                    String.intercalate "." (splitDots k).tail ++ "') = ?"])
                  (ps ++ [v1]))
            else bwcff rest (conds ++ [sqEscape k ++ " = ?"]) (ps ++ [v1]))
            (if hasDotChar k = true then
              (if sqliteIsArrayField ((splitDots k).headD k) = true then
                bwcff (substO σ rest)
                  (conds ++ [sqlitePathExistsCond ((splitDots k).headD k)
                    (String.intercalate "." (splitDots k).tail)])
                  (qs ++ [v2])
              else
                bwcff (substO σ rest)
                  (conds ++ ["json_extract(" ++
                    sqEscape ((splitDots k).headD k) ++ ", '$." ++
                    String.intercalate "." (splitDots k).tail ++ "') = ?"])
                  (qs ++ [v2]))
            else bwcff (substO σ rest) (conds ++ [sqEscape k ++ " = ?"])
              (qs ++ [v2])) := by
        intro v1 v2 hv
        cases hdot : hasDotChar k <;>
          simp only [Bool.false_eq_true, if_false, reduceIte]
        · exact ih _ _ _ (PRel_push_pair h hv)
        · cases hroot : sqliteIsArrayField ((splitDots k).headD k) <;>
            simp only [Bool.false_eq_true, if_false, reduceIte] <;>
            exact ih _ _ _ (PRel_push_pair h hv)
      cases v with
      | vObj gs =>
        simp only [bwcff, substV, hd, Bool.false_eq_true, if_false, reduceIte]
        rw [substO_any_dollar σ gs]
        cases hany : gs.any (fun e => strStarts e.1 "$")
        · -- nested equalities
          obtain ⟨hfst, hp⟩ := bwcffNested_subst σ (sqEscape k) gs [] ps qs h
          simp only [Bool.false_eq_true, if_false, reduceIte]
          show ERelL
            (if (bwcffNested (sqEscape k) gs [] ps).1.isEmpty then
              bwcff rest conds (bwcffNested (sqEscape k) gs [] ps).2
            else
              bwcff rest
                (conds ++ ["(" ++ String.intercalate " AND "
                  (bwcffNested (sqEscape k) gs [] ps).1 ++ ")"])
                (bwcffNested (sqEscape k) gs [] ps).2)
            (if (bwcffNested (sqEscape k) (substO σ gs) [] qs).1.isEmpty then
              bwcff (substO σ rest) conds
                (bwcffNested (sqEscape k) (substO σ gs) [] qs).2
            else
              bwcff (substO σ rest)
                (conds ++ ["(" ++ String.intercalate " AND "
                  (bwcffNested (sqEscape k) (substO σ gs) [] qs).1 ++ ")"])
                (bwcffNested (sqEscape k) (substO σ gs) [] qs).2)
          rw [hfst]
          cases hne : (bwcffNested (sqEscape k) gs [] ps).1.isEmpty <;>
            simp only [Bool.false_eq_true, if_false, reduceIte] <;>
            exact ih _ _ _ hp
        · -- operator map on the field
          have cont2 : ∀ (A B : Except String (List String × List JVal)),
              ERelL A B →
              ERelL (match A with
                     | .error e1 => .error e1
                     | .ok (conds', params') => bwcff rest conds' params')
                    (match B with
                     | .error e1 => .error e1
                     | .ok (conds', params') =>
                       bwcff (substO σ rest) conds' params') := by
            intro A B hab
            match A, B with
            | .error e1, .error e2 => exact hab
            | .error e1, .ok (c, p) => exact hab.elim
            | .ok (c, p), .error e2 => exact hab.elim
            | .ok (cs1, p1), .ok (cs2, p2) =>
              obtain ⟨hc, hp⟩ := hab
              subst hc
              exact ih _ _ _ hp
          simp only [reduceIte]
          exact cont2 _ _ (bwcffFieldOps_subst σ hσ (sqEscape k) gs conds ps qs h)
      | vArr xs =>
        simp only [bwcff, substV, hd, Bool.false_eq_true, if_false, reduceIte]
        cases hfa : sqliteIsArrayField k <;>
          simp only [Bool.false_eq_true, if_false, reduceIte] <;>
          rw [map_const_of_length "?" (substL σ xs) xs (substL_length σ xs)] <;>
          exact ih _ _ _ (PRel_append h (PRel_raw_list σ xs))
      | vUndef =>
        simp only [bwcff, substV, hd, Bool.false_eq_true, if_false, reduceIte]
        exact scalarStep .vUndef .vUndef rfl
      | vNull =>
        simp only [bwcff, substV, hd, Bool.false_eq_true, if_false, reduceIte]
        exact scalarStep .vNull .vNull rfl
      | vBool b =>
        simp only [bwcff, substV, hd, Bool.false_eq_true, if_false, reduceIte]
        exact scalarStep (.vBool b) (.vBool b) rfl
      | vNum n =>
        simp only [bwcff, substV, hd, Bool.false_eq_true, if_false, reduceIte]
        exact scalarStep (.vNum n) (.vNum n) rfl
      | vStr s =>
        simp only [bwcff, substV, hd, Bool.false_eq_true, if_false, reduceIte]
        exact scalarStep (.vStr s) (.vStr (σ s)) rfl
    · -- top-level operator key
      have cont : ∀ (A B : Except String (String × List JVal)), ERelS A B →
          ERelL (match A with
                 | .error e1 => .error e1
                 | .ok (c, params') =>
                   if c = "" then bwcff rest conds params'
                   else bwcff rest (conds ++ [c]) params')
                (match B with
                 | .error e1 => .error e1
                 | .ok (c, params') =>
                   if c = "" then bwcff (substO σ rest) conds params'
                   else bwcff (substO σ rest) (conds ++ [c]) params') := by
        intro A B hab
        match A, B with
        | .error e1, .error e2 => exact hab
        | .error e1, .ok (c, p) => exact hab.elim
        | .ok (c, p), .error e2 => exact hab.elim
        | .ok (c1, p1), .ok (c2, p2) =>
          obtain ⟨hc, hp⟩ := hab
          subst hc
          show ERelL
            (if c1 = "" then bwcff rest conds p1
             else bwcff rest (conds ++ [c1]) p1)
            (if c1 = "" then bwcff (substO σ rest) conds p2
             else bwcff (substO σ rest) (conds ++ [c1]) p2)
          by_cases hc0 : c1 = ""
          · rw [if_pos hc0, if_pos hc0]
            exact ih _ _ _ hp
          · rw [if_neg hc0, if_neg hc0]
            exact ih _ _ _ hp
      cases v with
      | vNull =>
        simp only [bwcff, substV, hd, reduceIte]
        exact rfl
      | vUndef =>
        simp only [bwcff, substV, hd, reduceIte]
        exact rfl
      | vObj fs =>
        simp only [bwcff, substV, hd, reduceIte]
        exact cont _ _
          (sqliteBuildOperatorConditions_subst σ hσ "" (jsEntries (.vObj fs)) ps qs h)
      | vArr xs =>
        simp only [bwcff, substV, hd, reduceIte]
        have h2 := sqliteBuildOperatorConditions_subst σ hσ ""
          (jsEntries (.vArr xs)) ps qs h
        rw [← jsEntries_vArr_subst σ xs] at h2
        exact cont _ _ h2
      | vStr s =>
        simp only [bwcff, substV, hd, reduceIte]
        refine cont _ _ ?_
        rw [sqliteBuildOperatorConditions_vStr "" s ps,
          sqliteBuildOperatorConditions_vStr "" (σ s) qs]
        exact ⟨rfl, h⟩
      | vBool b =>
        simp only [bwcff, substV, hd, reduceIte]
        have hbb : ERelS
            (sqliteBuildOperatorConditions "" (jsEntries (JVal.vBool b)) ps)
            (sqliteBuildOperatorConditions "" (jsEntries (JVal.vBool b)) qs) :=
          ⟨rfl, h⟩
        exact cont _ _ hbb
      | vNum n =>
        simp only [bwcff, substV, hd, reduceIte]
        have hbn : ERelS
            (sqliteBuildOperatorConditions "" (jsEntries (JVal.vNum n)) ps)
            (sqliteBuildOperatorConditions "" (jsEntries (JVal.vNum n)) qs) :=
          ⟨rfl, h⟩
        exact cont _ _ hbn

theorem hafqInLoop_step_skip (params : List JVal)
    (ms : List (Nat × String × Nat)) (idx : Nat) (fieldName : String)
    (len : Nat) (sqlW : String) (newParams : List JVal) (paramIndex : Nat)
    (hf : sqliteIsArrayField fieldName = false) :
    hafqInLoop params ((idx, fieldName, len) :: ms) sqlW newParams paramIndex =
      hafqInLoop params ms sqlW
        (newParams ++ [params.getD paramIndex .vUndef]) (paramIndex + 1) := by
  simp only [hafqInLoop, hf, Bool.false_eq_true, if_false, reduceIte]

theorem hafqInLoop_step_arr (params : List JVal)
    (ms : List (Nat × String × Nat)) (idx : Nat) (fieldName : String)
    (len : Nat) (sqlW : String) (newParams : List JVal) (paramIndex : Nat)
    {arr : List JVal} (hf : sqliteIsArrayField fieldName = true)
    (hv : params.getD paramIndex .vUndef = .vArr arr) :
    hafqInLoop params ((idx, fieldName, len) :: ms) sqlW newParams paramIndex =
      hafqInLoop params ms
        (strReplaceAt sqlW idx len
          ("EXISTS (SELECT 1 FROM json_each(\"" ++ fieldName ++
            "\") WHERE value IN (" ++
            String.intercalate ", " (arr.map fun _ => "?") ++ "))"))
        (newParams ++ arr) (paramIndex + 1) := by
  simp only [hafqInLoop, hf, reduceIte, hv]

theorem hafqInLoop_step_nonarr (params : List JVal)
    (ms : List (Nat × String × Nat)) (idx : Nat) (fieldName : String)
    (len : Nat) (sqlW : String) (newParams : List JVal) (paramIndex : Nat)
    (hf : sqliteIsArrayField fieldName = true)
    (hv : arrLen (params.getD paramIndex .vUndef) = none) :
    hafqInLoop params ((idx, fieldName, len) :: ms) sqlW newParams paramIndex =
      hafqInLoop params ms sqlW
        (newParams ++ [params.getD paramIndex .vUndef]) (paramIndex + 1) := by
  cases hp : params.getD paramIndex .vUndef <;> rw [hp] at hv <;>
    simp only [arrLen, reduceCtorEq] at hv <;>
    simp only [hafqInLoop, hf, reduceIte, hp]

/-- The rewritten sql text of the `IN`-pattern loop depends on the bound
parameters only through their array shapes. -/
theorem hafqInLoop_sql {ps qs : List JVal} (h : PRel ps qs) :
    ∀ (ms : List (Nat × String × Nat)) (sqlW : String)
      (nps nqs : List JVal) (k : Nat),
      (hafqInLoop ps ms sqlW nps k).1 = (hafqInLoop qs ms sqlW nqs k).1 := by
  intro ms
  induction ms with
  | nil => intro sqlW nps nqs k; rfl
  | cons m ms ih =>
    intro sqlW nps nqs k
    obtain ⟨idx, fieldName, len⟩ := m
    cases hf : sqliteIsArrayField fieldName
    · rw [hafqInLoop_step_skip ps ms idx fieldName len sqlW nps k hf,
        hafqInLoop_step_skip qs ms idx fieldName len sqlW nqs k hf]
      exact ih _ _ _ _
    · have hk := PRel_getD h k
      cases hp : ps.getD k .vUndef
      case vArr a =>
        rw [hp] at hk
        cases hq : qs.getD k .vUndef <;> rw [hq] at hk <;>
          simp only [arrLen, Option.some.injEq, reduceCtorEq] at hk
        case vArr b =>
          rw [hafqInLoop_step_arr ps ms idx fieldName len sqlW nps k hf hp,
            hafqInLoop_step_arr qs ms idx fieldName len sqlW nqs k hf hq,
            map_const_of_length "?" b a (by rw [hk])]
          exact ih _ _ _ _
      all_goals
        rw [hp] at hk
        rw [hafqInLoop_step_nonarr ps ms idx fieldName len sqlW nps k hf
            (by rw [hp]; rfl),
          hafqInLoop_step_nonarr qs ms idx fieldName len sqlW nqs k hf
            (by rw [← hk]; rfl)]
        exact ih _ _ _ _

/-- The sql text returned by `handleArrayFieldQuery` depends on the bound
parameters only through their array shapes. -/
theorem handleArrayFieldQuery_sql (w : String) {ps qs : List JVal}
    (h : PRel ps qs) :
    (handleArrayFieldQuery w ps).sql = (handleArrayFieldQuery w qs).sql := by
  simp only [handleArrayFieldQuery]
  by_cases ht : jsTrim w = ""
  · rw [if_pos ht, if_pos ht]
  · rw [if_neg ht, if_neg ht]
    rw [hafqInLoop_sql h (scanMatches litIN w) w [] [] 0]
    by_cases hne : hafqEqLoop (scanMatches litEQ w)
        (hafqInLoop qs (scanMatches litIN w) w [] 0).1 ≠ w
    · rw [if_pos hne, if_pos hne]
    · rw [if_neg hne, if_neg hne]

/-- Result relation for the full translators: identical errors, or
queries with identical sql text. -/
def ERelQ : Except String SqlQuery → Except String SqlQuery → Prop
  | .error e1, .error e2 => e1 = e2
  | .ok q1, .ok q2 => q1.sql = q2.sql
  | _, _ => False

theorem substO_isEmpty (σ : String → String) :
    ∀ f : Obj, (substO σ f).isEmpty = f.isEmpty
  | [] => rfl
  | (_, _) :: _ => rfl

/-- Substituting every string value of a filter (by an emptiness-preserving
substitution) leaves the generated sql text unchanged: values reach the
query only through `params`. -/
theorem sqliteTranslateFilter_sql_subst (σ : String → String)
    (hσ : EmpPres σ) (filter : Obj) :
    ERelQ (sqliteTranslateFilter filter)
      (sqliteTranslateFilter (substO σ filter)) := by
  simp only [sqliteTranslateFilter, substO_isEmpty]
  cases hemp : filter.isEmpty
  · simp only [Bool.false_eq_true, if_false, reduceIte]
    rw [preprocessFilter_subst σ filter, hnList_subst σ (preprocessFilter filter)]
    cases hh : hnList (preprocessFilter filter) with
    | error e1 => exact rfl
    | ok ff =>
      simp only [Except.map]
      have hb := bwcff_subst σ hσ ff [] [] [] PRel_nil
      cases ha : bwcff ff [] [] with
      | error e1 =>
        rw [ha] at hb
        cases hb2 : bwcff (substO σ ff) [] [] with
        | error e2 => rw [hb2] at hb; exact hb
        | ok r => rw [hb2] at hb; obtain ⟨c, p⟩ := r; cases hb
      | ok r =>
        obtain ⟨conds, fps⟩ := r
        rw [ha] at hb
        cases hb2 : bwcff (substO σ ff) [] [] with
        | error e2 => rw [hb2] at hb; cases hb
        | ok r' =>
          obtain ⟨conds', fqs⟩ := r'
          rw [hb2] at hb
          obtain ⟨hc, hp⟩ := hb
          subst hc
          exact handleArrayFieldQuery_sql _ hp
  · simp only [reduceIte]
    exact rfl
theorem lookupJ_substO (σ : String → String) :
    ∀ (u : Obj) (name : String),
      lookupJ (substO σ u) name = (lookupJ u name).map (substV σ)
  | [], _ => rfl
  | (k, v) :: rest, name => by
    simp only [substO, lookupJ]
    by_cases hk : k = name
    · rw [if_pos hk, if_pos hk]
      rfl
    · rw [if_neg hk, if_neg hk]
      exact lookupJ_substO σ rest name

/-- The update-group shapes for which the SET-clause text cannot depend on
the bound values: a raw string group iterates `Object.entries` of the
string, making the number of fragments depend on the string's length. -/
def groupOkB : Option JVal → Bool
  | some (.vStr _) => false
  | _ => true

/-- Well-formedness of an update spec for sql-text invariance: none of the
six operator groups the SQLite SET-clause builder handles is a raw
string. -/
def updateGroupsWF (update : Obj) : Prop :=
  groupOkB (lookupJ update "$set") = true ∧
  groupOkB (lookupJ update "$inc") = true ∧
  groupOkB (lookupJ update "$unset") = true ∧
  groupOkB (lookupJ update "$push") = true ∧
  groupOkB (lookupJ update "$addToSet") = true ∧
  groupOkB (lookupJ update "$pull") = true

theorem jsTruthy_subst_ok (σ : String → String) (v : JVal)
    (hok : groupOkB (some v) = true) :
    jsTruthy (substV σ v) = jsTruthy v := by
  cases v <;> simp_all [groupOkB, substV, jsTruthy]

theorem jsEntries_subst_ok (σ : String → String) (v : JVal)
    (hok : groupOkB (some v) = true) :
    jsEntries (substV σ v) = substO σ (jsEntries v) := by
  cases v with
  | vObj fs => rfl
  | vArr xs => exact jsEntries_vArr_subst σ xs
  | vStr s => exact absurd hok (by simp [groupOkB])
  | vUndef => rfl
  | vNull => rfl
  | vBool b => rfl
  | vNum n => rfl

theorem sqliteSetEntries_fst (σ : String → String) :
    ∀ (gs : List (String × JVal)) (cls : List String) (ps qs : List JVal),
      (sqliteSetEntries (substO σ gs) cls qs).1 = (sqliteSetEntries gs cls ps).1
  | [], _, _, _ => rfl
  | (k, v) :: rest, cls, ps, qs => by
    rw [substO]
    simp only [sqliteSetEntries]
    cases hdot : hasDotChar k <;>
      simp only [Bool.false_eq_true, if_false, reduceIte]
    · exact sqliteSetEntries_fst σ rest _ _ _
    · cases hnum : ((splitDots k).length ≥ 2 &&
          jsIsNumericSegment ((splitDots k).getD 1 "")) <;>
        simp only [Bool.false_eq_true, if_false, reduceIte]
      · exact sqliteSetEntries_fst σ rest _ _ _
      · by_cases hlen : (splitDots k).length = 2
        · rw [if_pos hlen, if_pos hlen]
          exact sqliteSetEntries_fst σ rest _ _ _
        · rw [if_neg hlen, if_neg hlen]
          exact sqliteSetEntries_fst σ rest _ _ _

theorem sqliteIncEntries_fst (σ : String → String) :
    ∀ (gs : List (String × JVal)) (cls : List String) (ps qs : List JVal),
      (sqliteIncEntries (substO σ gs) cls qs).1 = (sqliteIncEntries gs cls ps).1
  | [], _, _, _ => rfl
  | (k, v) :: rest, cls, ps, qs => by
    rw [substO]
    simp only [sqliteIncEntries]
    exact sqliteIncEntries_fst σ rest _ _ _

theorem sqliteUnsetEntries_fst (σ : String → String) :
    ∀ (gs : List (String × JVal)) (cls : List String) (ps qs : List JVal),
      (sqliteUnsetEntries (substO σ gs) cls qs).1 =
        (sqliteUnsetEntries gs cls ps).1
  | [], _, _, _ => rfl
  | (k, v) :: rest, cls, ps, qs => by
    rw [substO]
    simp only [sqliteUnsetEntries]
    exact sqliteUnsetEntries_fst σ rest _ _ _

theorem sqlitePushEntries_fst (σ : String → String) :
    ∀ (gs : List (String × JVal)) (cls : List String) (ps qs : List JVal),
      (sqlitePushEntries (substO σ gs) cls qs).1 =
        (sqlitePushEntries gs cls ps).1
  | [], _, _, _ => rfl
  | (k, v) :: rest, cls, ps, qs => by
    rw [substO]
    simp only [sqlitePushEntries]
    exact sqlitePushEntries_fst σ rest _ _ _

theorem sqliteAddToSetEntries_fst (σ : String → String) :
    ∀ (gs : List (String × JVal)) (cls : List String) (ps qs : List JVal),
      (sqliteAddToSetEntries (substO σ gs) cls qs).1 =
        (sqliteAddToSetEntries gs cls ps).1
  | [], _, _, _ => rfl
  | (k, v) :: rest, cls, ps, qs => by
    rw [substO]
    simp only [sqliteAddToSetEntries]
    exact sqliteAddToSetEntries_fst σ rest _ _ _

theorem sqlitePullEntries_fst (σ : String → String) :
    ∀ (gs : List (String × JVal)) (cls : List String) (ps qs : List JVal),
      (sqlitePullEntries (substO σ gs) cls qs).1 =
        (sqlitePullEntries gs cls ps).1
  | [], _, _, _ => rfl
  | (k, v) :: rest, cls, ps, qs => by
    rw [substO]
    simp only [sqlitePullEntries]
    exact sqlitePullEntries_fst σ rest _ _ _

/-- One update-operator group emits the same clause list under value
substitution, provided it is not a raw string group. -/
theorem setGroup_fst (σ : String → String) (update : Obj) (name : String)
    {f : List (String × JVal) → List String → List JVal →
      List String × List JVal}
    (hf : ∀ gs cls ps qs, (f (substO σ gs) cls qs).1 = (f gs cls ps).1)
    (hok : groupOkB (lookupJ update name) = true)
    {cls1 cls2 : List String} (hcl : cls2 = cls1) {ps qs : List JVal} :
    (setGroup (substO σ update) name f cls2 qs).1 =
      (setGroup update name f cls1 ps).1 := by
  subst hcl
  simp only [setGroup]
  rw [lookupJ_substO]
  cases hv : lookupJ update name with
  | none => rfl
  | some v =>
    rw [hv] at hok
    simp only [Option.map]
    rw [jsTruthy_subst_ok σ v hok, jsEntries_subst_ok σ v hok]
    cases ht : jsTruthy v
    · simp
    · simp only [reduceIte]
      exact hf (jsEntries v) cls2 ps qs

/-- The SQLite SET-clause text is invariant under value substitution when
no handled operator group is a raw string. -/
theorem sqliteBuildSetClause_fst (σ : String → String) (update : Obj)
    (hwf : updateGroupsWF update) (ps qs : List JVal) :
    (sqliteBuildSetClause (substO σ update) qs).1 =
      (sqliteBuildSetClause update ps).1 := by
  obtain ⟨w1, w2, w3, w4, w5, w6⟩ := hwf
  exact congrArg (String.intercalate ", ")
    (setGroup_fst σ update "$pull" (sqlitePullEntries_fst σ) w6
      (setGroup_fst σ update "$addToSet" (sqliteAddToSetEntries_fst σ) w5
        (setGroup_fst σ update "$push" (sqlitePushEntries_fst σ) w4
          (setGroup_fst σ update "$unset" (sqliteUnsetEntries_fst σ) w3
            (setGroup_fst σ update "$inc" (sqliteIncEntries_fst σ) w2
              (setGroup_fst σ update "$set" (sqliteSetEntries_fst σ) w1
                rfl))))))

/-- Substituting every string value of the update spec and the filter
leaves `translateUpdate`'s sql text unchanged. -/
theorem sqliteTranslateUpdate_sql_subst (σ : String → String)
    (hσ : EmpPres σ) (tableName : String) (update filter : Obj)
    (hwf : updateGroupsWF update) :
    ERelQ (sqliteTranslateUpdate tableName update filter)
      (sqliteTranslateUpdate tableName (substO σ update) (substO σ filter)) := by
  unfold sqliteTranslateUpdate
  have hw := sqliteTranslateFilter_sql_subst σ hσ filter
  cases ha : sqliteTranslateFilter filter with
  | error e1 =>
    rw [ha] at hw
    cases hb : sqliteTranslateFilter (substO σ filter) with
    | error e2 => rw [hb] at hw; exact hw
    | ok q => rw [hb] at hw; cases hw
  | ok q =>
    rw [ha] at hw
    cases hb : sqliteTranslateFilter (substO σ filter) with
    | error e2 => rw [hb] at hw; cases hw
    | ok q' =>
      rw [hb] at hw
      show ("UPDATE " ++ sqEscape tableName ++ " SET " ++
          (sqliteBuildSetClause update []).1 ++ " " ++ q.sql) =
        ("UPDATE " ++ sqEscape tableName ++ " SET " ++
          (sqliteBuildSetClause (substO σ update) []).1 ++ " " ++ q'.sql)
      rw [hw, sqliteBuildSetClause_fst σ update hwf [] []]

/-- Substituting every string value of the filter leaves
`translateDelete`'s sql text unchanged. -/
theorem sqliteTranslateDelete_sql_subst (σ : String → String)
    (hσ : EmpPres σ) (tableName : String) (filter : Obj) :
    ERelQ (sqliteTranslateDelete tableName filter)
      (sqliteTranslateDelete tableName (substO σ filter)) := by
  unfold sqliteTranslateDelete
  have hw := sqliteTranslateFilter_sql_subst σ hσ filter
  cases ha : sqliteTranslateFilter filter with
  | error e1 =>
    rw [ha] at hw
    cases hb : sqliteTranslateFilter (substO σ filter) with
    | error e2 => rw [hb] at hw; exact hw
    | ok q => rw [hb] at hw; cases hw
  | ok q =>
    rw [ha] at hw
    cases hb : sqliteTranslateFilter (substO σ filter) with
    | error e2 => rw [hb] at hw; cases hw
    | ok q' =>
      rw [hb] at hw
      show ("DELETE FROM " ++ sqEscape tableName ++ " " ++ q.sql) =
        ("DELETE FROM " ++ sqEscape tableName ++ " " ++ q'.sql)
      rw [hw]

/-- C1 counterexample to the literal reading of the claim: for the filter
`{a: "\x22 = ?"}` the bound string value `\x22 = ?` occurs verbatim as a
substring of the generated sql text `WHERE "a" = ?`, purely because the
value happens to spell sql punctuation that the translator emits for
every string equality; the value is still bound as the sole parameter and
is never incorporated into the text. -/
theorem C1_counterexample :
    sqliteTranslateFilter [("a", JVal.vStr "\" = ?")] =
        .ok ⟨"WHERE \"a\" = ?", [JVal.vStr "\" = ?"]⟩ ∧
      strIncl "\" = ?" "WHERE \"a\" = ?" = true :=
  ⟨rfl, rfl⟩

/-- C1: Injection safety, in its faithful form: the sql text produced by
`translateFilter`, `translateUpdate`, `translateDelete` and
`translateInsert` never incorporates a string value of the input —
substituting every string value (by any substitution that preserves
emptiness, so `$exists`-style truthiness is unchanged) leaves the sql
text of the result unchanged (and errors identical), provided no update
operator group is a raw string (`updateGroupsWF`); values reach the query
exclusively through `params`. -/
theorem C1_sql_text_value_free (σ : String → String) (hσ : EmpPres σ)
    (tableName : String) (filter update doc : Obj)
    (hwf : updateGroupsWF update) :
    ERelQ (sqliteTranslateFilter filter)
        (sqliteTranslateFilter (substO σ filter)) ∧
      ERelQ (sqliteTranslateUpdate tableName update filter)
        (sqliteTranslateUpdate tableName (substO σ update)
          (substO σ filter)) ∧
      ERelQ (sqliteTranslateDelete tableName filter)
        (sqliteTranslateDelete tableName (substO σ filter)) ∧
      (sqliteTranslateInsert tableName (substO σ doc)).sql =
        (sqliteTranslateInsert tableName doc).sql :=
  ⟨sqliteTranslateFilter_sql_subst σ hσ filter,
   sqliteTranslateUpdate_sql_subst σ hσ tableName update filter hwf,
   sqliteTranslateDelete_sql_subst σ hσ tableName filter,
   rfl⟩

/-- A concrete emptiness-preserving substitution: every nonempty string
becomes `Z`. -/
def sigma0 : String → String := fun s => if s = "" then "" else "Z"

theorem sigma0_emp_pres : EmpPres sigma0 := by
  intro s
  by_cases h : s = ""
  · simp [sigma0, h]
  · simp [sigma0, h]

theorem C1_witness :
    EmpPres sigma0 ∧
      updateGroupsWF [("$set", JVal.vObj [("b", JVal.vStr "y")])] ∧
      (ERelQ (sqliteTranslateFilter [("a", JVal.vStr "x")])
          (sqliteTranslateFilter (substO sigma0 [("a", JVal.vStr "x")])) ∧
        ERelQ (sqliteTranslateUpdate "users"
            [("$set", JVal.vObj [("b", JVal.vStr "y")])]
            [("a", JVal.vStr "x")])
          (sqliteTranslateUpdate "users"
            (substO sigma0 [("$set", JVal.vObj [("b", JVal.vStr "y")])])
            (substO sigma0 [("a", JVal.vStr "x")])) ∧
        ERelQ (sqliteTranslateDelete "users" [("a", JVal.vStr "x")])
          (sqliteTranslateDelete "users"
            (substO sigma0 [("a", JVal.vStr "x")])) ∧
        (sqliteTranslateInsert "users"
            (substO sigma0 [("c", JVal.vStr "z")])).sql =
          (sqliteTranslateInsert "users" [("c", JVal.vStr "z")]).sql) :=
  ⟨sigma0_emp_pres, ⟨rfl, rfl, rfl, rfl, rfl, rfl⟩,
    C1_sql_text_value_free sigma0 sigma0_emp_pres "users"
      [("a", JVal.vStr "x")] [("$set", JVal.vObj [("b", JVal.vStr "y")])]
      [("c", JVal.vStr "z")] ⟨rfl, rfl, rfl, rfl, rfl, rfl⟩⟩

end MqlibProof
